import Mathlib

/-!
Verification of the `exdateutil_rrule` NIF layer
(src/native/exdateutil_rrule/src/lib.rs).

The file shallowly embeds the Rust code: the `Properties` struct, the
conversion `properties_to_rrule`, the NIF entry points `string_to_rrule`,
`rrule_to_string`, `validate_rrule`, and the Rustler decoder for the
`until` field.  The external `rrule` crate (RRULE-text parsing, `Display`
of an unvalidated rule, engine-side validation) and `chrono` helpers
(`Weekday` parsing via `FromStr`, RFC 3339 timestamps) are not part of the
repository's sources; their behaviour, where the code depends on it, is
modelled from the specification and documented on each such definition.

Machine integers (`u8`, `u16`, `i8`, `i16`, `i32`, `u32`) are embedded as
`Nat`/`Int`; the only arithmetic the code performs on them is decimal
formatting and parsing, so bit-width appears as explicit range checks
exactly where the code (or the spec for the modelled parser) checks them.
-/

namespace RruleCodec

/-! ## Core enumerations (mirroring `rrule::Frequency`, `chrono::Weekday`,
`chrono::Month`, `rrule::NWeekday`) -/

/-- Mirror of `rrule::Frequency`: the seven RFC 5545 frequencies. -/
inductive Frequency
  | secondly | minutely | hourly | daily | weekly | monthly | yearly
deriving DecidableEq

/-- Mirror of `chrono::Weekday`. -/
inductive Weekday
  | mon | tue | wed | thu | fri | sat | sun
deriving DecidableEq

/-- Mirror of `chrono::Month` (used for the `by_month` range check via
`Month::try_from`). -/
inductive Month
  | january | february | march | april | may | june | july
  | august | september | october | november | december
deriving DecidableEq

/-- Mirror of `rrule::NWeekday`: a weekday, optionally with an "nth in period"
ordinal (`i16`). -/
inductive NWeekday
  | every (w : Weekday)
  | nth (n : Int) (w : Weekday)
deriving DecidableEq

/-- Debug (and Display) rendering of `rrule::Frequency`, as produced by
`format!("{:?}", rrule.get_freq())` in `string_to_rrule`. -/
def freqDebug : Frequency → String
  | .secondly => "Secondly"
  | .minutely => "Minutely"
  | .hourly => "Hourly"
  | .daily => "Daily"
  | .weekly => "Weekly"
  | .monthly => "Monthly"
  | .yearly => "Yearly"

/-- The exact `match p.freq.as_str()` of `properties_to_rrule`
(lib.rs lines 388-400): case-sensitive comparison against the seven
title-case names. -/
def freqOfDebug : String → Option Frequency
  | "Secondly" => some .secondly
  | "Minutely" => some .minutely
  | "Hourly" => some .hourly
  | "Daily" => some .daily
  | "Weekly" => some .weekly
  | "Monthly" => some .monthly
  | "Yearly" => some .yearly
  | _ => none

/-- Debug and Display rendering of `chrono::Weekday` ("Mon", "Tue", ...), as
produced by `format!("{:?}", rrule.get_week_start())` and by
`s.to_string()` in `to_external_n_weekday`. -/
def wdDebug : Weekday → String
  | .mon => "Mon"
  | .tue => "Tue"
  | .wed => "Wed"
  | .thu => "Thu"
  | .fri => "Fri"
  | .sat => "Sat"
  | .sun => "Sun"

/-- Long-name suffix (after the three-letter abbreviation) of each
weekday's English name, lower case. -/
def wdLongSuffix : Weekday → List Char
  | .mon => ['d','a','y']
  | .tue => ['s','d','a','y']
  | .wed => ['n','e','s','d','a','y']
  | .thu => ['r','s','d','a','y']
  | .fri => ['d','a','y']
  | .sat => ['u','r','d','a','y']
  | .sun => ['d','a','y']

/-- Modelled from the spec: the behaviour of
`s.parse::<rrule::Weekday>()` (lib.rs lines 402, 430, 440), i.e.
`chrono::Weekday`'s `FromStr`, which the repository's sources rely on but
which is not under src/.  It matches the first three characters
case-insensitively against the weekday abbreviations, optionally consumes
the remainder of the long English name (also case-insensitively), and
requires the whole string to be consumed.  So "Mon", "MON", "mon",
"Monday" parse as Monday while "MO" and "Monx" do not. -/
def weekdayFromChars (l : List Char) : Option Weekday :=
  match l.map Char.toLower with
  | 'm' :: 'o' :: 'n' :: rest =>
    if rest = [] ∨ rest = wdLongSuffix .mon then some .mon else none
  | 't' :: 'u' :: 'e' :: rest =>
    if rest = [] ∨ rest = wdLongSuffix .tue then some .tue else none
  | 'w' :: 'e' :: 'd' :: rest =>
    if rest = [] ∨ rest = wdLongSuffix .wed then some .wed else none
  | 't' :: 'h' :: 'u' :: rest =>
    if rest = [] ∨ rest = wdLongSuffix .thu then some .thu else none
  | 'f' :: 'r' :: 'i' :: rest =>
    if rest = [] ∨ rest = wdLongSuffix .fri then some .fri else none
  | 's' :: 'a' :: 't' :: rest =>
    if rest = [] ∨ rest = wdLongSuffix .sat then some .sat else none
  | 's' :: 'u' :: 'n' :: rest =>
    if rest = [] ∨ rest = wdLongSuffix .sun then some .sun else none
  | _ => none

/-- String-level wrapper for `weekdayFromChars`. -/
def weekdayFromStr (s : String) : Option Weekday :=
  weekdayFromChars s.data

/-- The RFC 5545 two-letter code of a weekday, used in RRULE text
(`BYDAY`, `WKST`). -/
def wdCode : Weekday → List Char
  | .mon => ['M','O']
  | .tue => ['T','U']
  | .wed => ['W','E']
  | .thu => ['T','H']
  | .fri => ['F','R']
  | .sat => ['S','A']
  | .sun => ['S','U']

/-- Modelled from the spec: the RRULE-text parser's recognition of the
two-letter weekday codes (`WKST`, `BYDAY` tokens). -/
def codeToWd : List Char → Option Weekday
  | ['M','O'] => some .mon
  | ['T','U'] => some .tue
  | ['W','E'] => some .wed
  | ['T','H'] => some .thu
  | ['F','R'] => some .fri
  | ['S','A'] => some .sat
  | ['S','U'] => some .sun
  | _ => none

/-- The RFC 5545 literal token of a frequency ("DAILY", ...), used in
RRULE text. -/
def freqToken : Frequency → List Char
  | .secondly => ['S','E','C','O','N','D','L','Y']
  | .minutely => ['M','I','N','U','T','E','L','Y']
  | .hourly => ['H','O','U','R','L','Y']
  | .daily => ['D','A','I','L','Y']
  | .weekly => ['W','E','E','K','L','Y']
  | .monthly => ['M','O','N','T','H','L','Y']
  | .yearly => ['Y','E','A','R','L','Y']

/-- Modelled from the spec: the RRULE-text parser's `FREQ` token
recognition (§4.1: must accept the RFC literal tokens). -/
def tokenToFreq : List Char → Option Frequency
  | ['S','E','C','O','N','D','L','Y'] => some .secondly
  | ['M','I','N','U','T','E','L','Y'] => some .minutely
  | ['H','O','U','R','L','Y'] => some .hourly
  | ['D','A','I','L','Y'] => some .daily
  | ['W','E','E','K','L','Y'] => some .weekly
  | ['M','O','N','T','H','L','Y'] => some .monthly
  | ['Y','E','A','R','L','Y'] => some .yearly
  | _ => none

/-- Mirror of `chrono::Month::try_from(u8)` (lib.rs line 412): succeeds exactly on
1..=12. -/
def monthTryFrom : Nat → Option Month
  | 1 => some .january
  | 2 => some .february
  | 3 => some .march
  | 4 => some .april
  | 5 => some .may
  | 6 => some .june
  | 7 => some .july
  | 8 => some .august
  | 9 => some .september
  | 10 => some .october
  | 11 => some .november
  | 12 => some .december
  | _ => none

/-- Mirror of `Month::number_from_month()`, used by the `rrule` crate's `by_month`
setter to store months back as numbers (`get_by_month` returns `&[u8]`). -/
def monthNumber : Month → Nat
  | .january => 1
  | .february => 2
  | .march => 3
  | .april => 4
  | .may => 5
  | .june => 6
  | .july => 7
  | .august => 8
  | .september => 9
  | .october => 10
  | .november => 11
  | .december => 12

/-! ## Decimal digits, numbers and their text form

Used both by the modelled RRULE-text codec (numeric values in the text
grammar) and by the modelled RFC 3339 timestamp codec. -/

/-- The character of a single decimal digit (argument < 10 at all call
sites). -/
def digChar (d : Nat) : Char := Char.ofNat (48 + d)

/-- Numeric value of a digit character. -/
def digVal (c : Char) : Nat := c.toNat - 48

/-- Fuel-driven decimal rendering of a natural number, most significant
digit first.  Structural recursion on the fuel so that concrete inputs
evaluate inside the kernel. -/
def natCharsAux : Nat → Nat → List Char
  | 0, _ => []
  | fuel + 1, n =>
    if n < 10 then [digChar n]
    else natCharsAux fuel (n / 10) ++ [digChar (n % 10)]

/-- Decimal rendering of a natural number ("0", "1", ..., no sign, no
leading zeros). -/
def natChars (n : Nat) : List Char := natCharsAux (n + 1) n

/-- One step of decimal accumulation. -/
def digStep (a : Nat) (c : Char) : Nat := a * 10 + digVal c

/-- Parse a non-empty all-digit character list as a natural number. -/
def readNat (l : List Char) : Option Nat :=
  if l ≠ [] ∧ l.all (fun c => c.isDigit) then some (l.foldl digStep 0)
  else none

/-- Decimal rendering of an integer (optional leading '-'). -/
def intChars : Int → List Char
  | .ofNat n => natChars n
  | .negSucc m => '-' :: natChars (m + 1)

/-- Parse an optionally '-'-signed decimal integer. -/
def readInt (l : List Char) : Option Int :=
  if l.head? = some '-' then (readNat l.tail).map (fun n => -(n : Int))
  else (readNat l).map (fun n => (n : Int))

/-! ## Separator splitting and joining (the `;` and `,` structure of
RRULE text) -/

/-- Split a character list on a separator character; always returns at
least one (possibly empty) part. -/
def splitSep (c : Char) : List Char → List (List Char)
  | [] => [[]]
  | x :: xs =>
    if x = c then [] :: splitSep c xs
    else
      match splitSep c xs with
      | [] => [[x]]
      | h :: t => (x :: h) :: t

/-- Join character lists with a separator character. -/
def joinSep (c : Char) : List (List Char) → List Char
  | [] => []
  | [x] => x
  | x :: y :: ys => x ++ c :: joinSep c (y :: ys)

/-- Split at the first occurrence of a character: `some (before, after)`
when the character occurs, `none` otherwise. -/
def splitFirst (c : Char) : List Char → Option (List Char × List Char)
  | [] => none
  | x :: xs =>
    if x = c then some ([], xs)
    else (splitFirst c xs).map (fun pr => (x :: pr.1, pr.2))

/-! ## Timestamps

`DateTime<Tz>` values flow through the code; the code itself only parses
them from and formats them to RFC 3339 text, so a timestamp is embedded
as its UTC calendar components. -/

/-- A UTC timestamp, embedding `chrono::DateTime<rrule::Tz>` (the code
normalizes every parsed timestamp to UTC with `with_timezone(&Tz::UTC)`). -/
structure DateTime where
  year : Nat
  month : Nat
  day : Nat
  hour : Nat
  minute : Nat
  second : Nat
deriving DecidableEq

/-- The component ranges every timestamp the modelled RFC 3339 parser
produces satisfies. -/
def dtValid (dt : DateTime) : Prop :=
  dt.year ≤ 9999 ∧ 1 ≤ dt.month ∧ dt.month ≤ 12 ∧ 1 ≤ dt.day ∧
    dt.day ≤ 31 ∧ dt.hour ≤ 23 ∧ dt.minute ≤ 59 ∧ dt.second ≤ 59

instance (dt : DateTime) : Decidable (dtValid dt) := by
  unfold dtValid; infer_instance

/-- Two-digit zero-padded decimal rendering. -/
def pad2 (n : Nat) : List Char := [digChar (n / 10 % 10), digChar (n % 10)]

/-- Four-digit zero-padded decimal rendering. -/
def pad4 (n : Nat) : List Char :=
  [digChar (n / 1000 % 10), digChar (n / 100 % 10), digChar (n / 10 % 10),
    digChar (n % 10)]

/-- Modelled from the spec: RFC 3339 UTC rendering of a timestamp
("YYYY-MM-DDTHH:MM:SSZ"), the serialization form of `until` (§4.1:
"UNTIL is emitted in RFC 3339 form with UTC ... trailing Z"). -/
def fmtRfc3339 (dt : DateTime) : List Char :=
  pad4 dt.year ++ '-' :: pad2 dt.month ++ '-' :: pad2 dt.day ++
    'T' :: pad2 dt.hour ++ ':' :: pad2 dt.minute ++ ':' :: pad2 dt.second ++ ['Z']

/-- Range gate of the modelled RFC 3339 parser: a parsed timestamp is
returned only when its components are in range. -/
def checkedDT (dt : DateTime) : Option DateTime :=
  if dtValid dt then some dt else none

/-- Modelled from the spec: RFC 3339 timestamp parsing (the
`DateTime::parse_from_rfc3339` / `UNTIL` grammar of §4.1), restricted to
the UTC "YYYY-MM-DDTHH:MM:SSZ" form that the serializer emits.  Malformed
text yields `none`. -/
def parseRfc3339 : List Char → Option DateTime
  | [y1, y2, y3, y4, '-', m1, m2, '-', d1, d2, 'T',
     h1, h2, ':', i1, i2, ':', s1, s2, 'Z'] =>
    if ([y1, y2, y3, y4, m1, m2, d1, d2, h1, h2, i1, i2, s1, s2]).all
        (fun c => c.isDigit) then
      checkedDT
        { year := 1000 * digVal y1 + 100 * digVal y2 + 10 * digVal y3 + digVal y4
          month := 10 * digVal m1 + digVal m2
          day := 10 * digVal d1 + digVal d2
          hour := 10 * digVal h1 + digVal h2
          minute := 10 * digVal i1 + digVal i2
          second := 10 * digVal s1 + digVal s2 }
    else none
  | _ => none

/-- String-level RFC 3339 parsing. -/
def parseRfc3339Str (s : String) : Option DateTime := parseRfc3339 s.data

/-! ## Short-circuiting list traversals

`mapE` / `mapO` mirror Rust's `iter().map(..).collect::<Result<_,_>>()`
(and the `Option` analogue): the first failing element aborts the whole
traversal. -/

/-- Collect `Except` results, stopping at the first error. -/
def mapE (f : α → Except ε β) : List α → Except ε (List β)
  | [] => .ok []
  | x :: xs =>
    match f x with
    | .error e => .error e
    | .ok y =>
      match mapE f xs with
      | .error e => .error e
      | .ok ys => .ok (y :: ys)

/-- Collect `Option` results, stopping at the first `none`. -/
def mapO (f : α → Option β) : List α → Option (List β)
  | [] => some []
  | x :: xs =>
    match f x with
    | none => none
    | some y =>
      match mapO f xs with
      | none => none
      | some ys => some (y :: ys)

/-! ## The external engine's unvalidated rule

`rrule::RRule<Unvalidated>` as observed through the getters the code uses
(`get_freq`, `get_interval`, ..., `get_by_month` returning month numbers). -/

/-- Mirror of `rrule::RRule<Unvalidated>`, with machine-integer fields as
`Nat`/`Int`. -/
structure Unval where
  freq : Frequency
  interval : Nat
  count : Option Nat
  «until» : Option DateTime
  week_start : Weekday
  by_set_pos : List Int
  by_month : List Nat
  by_month_day : List Int
  by_year_day : List Int
  by_week_no : List Int
  by_weekday : List NWeekday
  by_hour : List Nat
  by_minute : List Nat
  by_second : List Nat
deriving DecidableEq

/-- The defaults of `RRule::<Unvalidated>::new(freq)`: interval 1, week
start Monday, no count/until, all lists empty.  The frequency placeholder
is always overwritten by the mandatory `FREQ` segment before the parser
returns. -/
def defaultUnval : Unval :=
  { freq := .daily, interval := 1, count := none, «until» := none,
    week_start := .mon, by_set_pos := [], by_month := [], by_month_day := [],
    by_year_day := [], by_week_no := [], by_weekday := [], by_hour := [],
    by_minute := [], by_second := [] }

/-! ## The modelled RRULE text codec

The repository delegates RRULE-text parsing (`"...".parse::<RRule<Unvalidated>>()`)
and rendering (`format!("{}", rrule)`) to the external `rrule` crate,
whose code is not under src/.  Both directions are modelled from the
spec: §4.1 gives the `KEY=VALUE` grammar, the per-key value grammars and
the canonical serialization order; §3 gives the field ranges (`by_month`
holds month numbers 1-12) and defaults. -/

/-- Errors of the modelled RRULE-text parser (spec §4.1: every failure
carries the offending key or token). -/
inductive ParseError
  | badSegment (seg : String)
  | unknownKey (key : String)
  | invalidFrequency (tok : String)
  | invalidInterval
  | invalidCount
  | invalidUntil
  | invalidWeekStart
  | invalidWeekday (tok : String)
  | invalidNumeric (key : String)
  | missingFreq
deriving DecidableEq

/-- One parsed `KEY=VALUE` segment, already range-checked. -/
inductive KV
  | freq (f : Frequency)
  | interval (n : Nat)
  | count (n : Nat)
  | «until» (dt : DateTime)
  | wkst (w : Weekday)
  | bysetpos (l : List Int)
  | bymonth (l : List Nat)
  | bymonthday (l : List Int)
  | byyearday (l : List Int)
  | byweekno (l : List Int)
  | byday (l : List NWeekday)
  | byhour (l : List Nat)
  | byminute (l : List Nat)
  | bysecond (l : List Nat)
deriving DecidableEq

/-- Whether a segment sets the mandatory frequency. -/
def kvIsFreq : KV → Bool
  | .freq _ => true
  | _ => false

/-- Character class of a `BYDAY` ordinal prefix: digits and the minus
sign. -/
def ordChar (c : Char) : Bool := c.isDigit || c == '-'

/-- Modelled from the spec: parsing one `BYDAY` token — a bare two-letter
weekday code (`Every`) or a signed-integer-prefixed code (`Nth`), any
other shape an invalid-weekday error (§4.1). -/
def parseNWdToken (t : List Char) : Except ParseError NWeekday :=
  if t.takeWhile ordChar = [] then
    match codeToWd t with
    | some w => .ok (.every w)
    | none => .error (.invalidWeekday (String.mk t))
  else
    match readInt (t.takeWhile ordChar) with
    | some n =>
      if -32768 ≤ n ∧ n ≤ 32767 then
        match codeToWd (t.dropWhile ordChar) with
        | some w => .ok (.nth n w)
        | none => .error (.invalidWeekday (String.mk t))
      else .error (.invalidWeekday (String.mk t))
    | none => .error (.invalidWeekday (String.mk t))

/-- Modelled from the spec: a comma-separated list of naturals within the
field's range (§4.1 "integers of the field's declared width"; for
`BYMONTH` the month-number range 1-12 of §3). -/
def parseNatList (key : String) (lo hi : Nat) (val : List Char) :
    Except ParseError (List Nat) :=
  mapE
    (fun t =>
      match readNat t with
      | some n => if lo ≤ n ∧ n ≤ hi then .ok n else .error (.invalidNumeric key)
      | none => .error (.invalidNumeric key))
    (splitSep ',' val)

/-- Modelled from the spec: a comma-separated list of signed integers
within the field's declared width (§4.1). -/
def parseIntList (key : String) (lo hi : Int) (val : List Char) :
    Except ParseError (List Int) :=
  mapE
    (fun t =>
      match readInt t with
      | some n => if lo ≤ n ∧ n ≤ hi then .ok n else .error (.invalidNumeric key)
      | none => .error (.invalidNumeric key))
    (splitSep ',' val)

/-- Modelled from the spec: dispatch of one recognized `KEY=VALUE` pair
(§4.1).  Unknown keys are a hard error; `INTERVAL` must be a nonzero
`u16`; `COUNT` a `u32`; the numeric list keys are width-checked; `BYDAY`
tokens follow the two-shape grammar. -/
def parseKeyVal (key val : List Char) : Except ParseError KV :=
  if key = ['F','R','E','Q'] then
    match tokenToFreq val with
    | some f => .ok (.freq f)
    | none => .error (.invalidFrequency (String.mk val))
  else if key = ['I','N','T','E','R','V','A','L'] then
    match readNat val with
    | some n => if 1 ≤ n ∧ n ≤ 65535 then .ok (.interval n) else .error .invalidInterval
    | none => .error .invalidInterval
  else if key = ['C','O','U','N','T'] then
    match readNat val with
    | some n => if n ≤ 4294967295 then .ok (.count n) else .error .invalidCount
    | none => .error .invalidCount
  else if key = ['U','N','T','I','L'] then
    match parseRfc3339 val with
    | some dt => .ok (.«until» dt)
    | none => .error .invalidUntil
  else if key = ['W','K','S','T'] then
    match codeToWd val with
    | some w => .ok (.wkst w)
    | none => .error .invalidWeekStart
  else if key = ['B','Y','S','E','T','P','O','S'] then
    (parseIntList "BYSETPOS" (-2147483648) 2147483647 val).map KV.bysetpos
  else if key = ['B','Y','M','O','N','T','H'] then
    (parseNatList "BYMONTH" 1 12 val).map KV.bymonth
  else if key = ['B','Y','M','O','N','T','H','D','A','Y'] then
    (parseIntList "BYMONTHDAY" (-128) 127 val).map KV.bymonthday
  else if key = ['B','Y','Y','E','A','R','D','A','Y'] then
    (parseIntList "BYYEARDAY" (-32768) 32767 val).map KV.byyearday
  else if key = ['B','Y','W','E','E','K','N','O'] then
    (parseIntList "BYWEEKNO" (-128) 127 val).map KV.byweekno
  else if key = ['B','Y','D','A','Y'] then
    (mapE parseNWdToken (splitSep ',' val)).map KV.byday
  else if key = ['B','Y','H','O','U','R'] then
    (parseNatList "BYHOUR" 0 255 val).map KV.byhour
  else if key = ['B','Y','M','I','N','U','T','E'] then
    (parseNatList "BYMINUTE" 0 255 val).map KV.byminute
  else if key = ['B','Y','S','E','C','O','N','D'] then
    (parseNatList "BYSECOND" 0 255 val).map KV.bysecond
  else .error (.unknownKey (String.mk key))

/-- Parse one `KEY=VALUE` segment. -/
def parseSegKV (seg : List Char) : Except ParseError KV :=
  match splitFirst '=' seg with
  | none => .error (.badSegment (String.mk seg))
  | some pr => parseKeyVal pr.1 pr.2

/-- Apply one parsed segment to the rule under construction. -/
def applyKV (st : Unval) : KV → Unval
  | .freq f => { st with freq := f }
  | .interval n => { st with interval := n }
  | .count n => { st with count := some n }
  | .«until» dt => { st with «until» := some dt }
  | .wkst w => { st with week_start := w }
  | .bysetpos l => { st with by_set_pos := l }
  | .bymonth l => { st with by_month := l }
  | .bymonthday l => { st with by_month_day := l }
  | .byyearday l => { st with by_year_day := l }
  | .byweekno l => { st with by_week_no := l }
  | .byday l => { st with by_weekday := l }
  | .byhour l => { st with by_hour := l }
  | .byminute l => { st with by_minute := l }
  | .bysecond l => { st with by_second := l }

/-- Modelled from the spec: the RRULE-text parser
(`"...".parse::<RRule<Unvalidated>>()` of the external crate, not under
src/).  Splits on `;`, parses each `KEY=VALUE` segment, errors on the
first invalid segment, requires `FREQ` (§3: absence is a parse error),
and otherwise fills the defaults of §3. -/
def rruleParse (l : List Char) : Except ParseError Unval :=
  match mapE parseSegKV (splitSep ';' l) with
  | .error e => .error e
  | .ok kvs =>
    if kvs.any kvIsFreq then .ok (kvs.foldl applyKV defaultUnval)
    else .error .missingFreq

/-- One `BYDAY` entry's text: `Nth(n, wd)` as `{n}{wd}`, `Every(wd)` as
`{wd}` (§4.1). -/
def nwdChars : NWeekday → List Char
  | .every w => wdCode w
  | .nth n w => intChars n ++ wdCode w

/-- Segments of an optional scalar field: nothing when absent, one
segment when present. -/
def optSeg (f : α → List Char) (o : Option α) : List (List Char) :=
  match o with
  | none => []
  | some a => [f a]

/-- A `KEY=VALUE` segment for a nonempty list field, the value
comma-separated. -/
def listSeg (key : List Char) (f : α → List Char) (l : List α) :
    List (List Char) :=
  match l with
  | [] => []
  | _ => [key ++ '=' :: joinSep ',' (l.map f)]

/-- Modelled from the spec: the serialized segments of a rule, in the
canonical order of §4.1's `serialize`, omitting every field at its
default/unconstrained value. -/
def fieldSegs (r : Unval) : List (List Char) :=
  [['F','R','E','Q'] ++ '=' :: freqToken r.freq] ++
  (if r.interval = 1 then []
   else [['I','N','T','E','R','V','A','L'] ++ '=' :: natChars r.interval]) ++
  optSeg (fun c => ['C','O','U','N','T'] ++ '=' :: natChars c) r.count ++
  optSeg (fun dt => ['U','N','T','I','L'] ++ '=' :: fmtRfc3339 dt) r.«until» ++
  (if r.week_start = .mon then []
   else [['W','K','S','T'] ++ '=' :: wdCode r.week_start]) ++
  listSeg ['B','Y','S','E','T','P','O','S'] intChars r.by_set_pos ++
  listSeg ['B','Y','M','O','N','T','H'] natChars r.by_month ++
  listSeg ['B','Y','M','O','N','T','H','D','A','Y'] intChars r.by_month_day ++
  listSeg ['B','Y','Y','E','A','R','D','A','Y'] intChars r.by_year_day ++
  listSeg ['B','Y','W','E','E','K','N','O'] intChars r.by_week_no ++
  listSeg ['B','Y','D','A','Y'] nwdChars r.by_weekday ++
  listSeg ['B','Y','H','O','U','R'] natChars r.by_hour ++
  listSeg ['B','Y','M','I','N','U','T','E'] natChars r.by_minute ++
  listSeg ['B','Y','S','E','C','O','N','D'] natChars r.by_second

/-- Modelled from the spec: `Display` of the unvalidated rule
(`format!("{}", rrule)` in `rrule_to_string`): the canonical segments
joined by `;` (§4.1 serialize). -/
def displayChars (r : Unval) : List Char := joinSep ';' (fieldSegs r)

/-! ## The repository's own layer (lib.rs)

From here on every definition is translated from
src/native/exdateutil_rrule/src/lib.rs. -/

/-- lib.rs lines 14-18: the Elixir-facing weekday encoding, a tagged
union of an `(i16, String)` tuple (nth weekday) and a bare `String`
(every weekday).  The second constructor is named `Str` because `String`
would shadow the string type. -/
inductive ExternalNWeekday
  | Tuple (n : Int) (s : String)
  | Str (s : String)
deriving DecidableEq

/-- lib.rs lines 137-154: the `Properties` struct exchanged with Elixir.
`MaybeCount` and `MaybeDateTime` (lib.rs lines 20-32) are `None`/`Some`
enums and are embedded as `Option`. -/
structure Properties where
  freq : String
  interval : Nat
  count : Option Nat
  «until» : Option DateTime
  week_start : String
  by_set_pos : List Int
  by_month : List Nat
  by_month_day : List Int
  by_year_day : List Int
  by_week_no : List Int
  by_weekday : List ExternalNWeekday
  by_hour : List Nat
  by_minute : List Nat
  by_second : List Nat
deriving DecidableEq

/-- The `#[derive(Default)]` value of `Properties`: empty strings, zero
interval, `None` options, empty vectors. -/
def Properties.rustDefault : Properties :=
  { freq := "", interval := 0, count := none, «until» := none,
    week_start := "", by_set_pos := [], by_month := [], by_month_day := [],
    by_year_day := [], by_week_no := [], by_weekday := [], by_hour := [],
    by_minute := [], by_second := [] }

/-- lib.rs lines 156-161: `to_external_n_weekday`, converting the
engine's `NWeekday` to the Elixir-facing encoding.  `s.to_string()` is
`chrono::Weekday`'s `Display`, producing the three-letter names. -/
def to_external_n_weekday : NWeekday → ExternalNWeekday
  | .nth n w => .Tuple n (wdDebug w)
  | .every w => .Str (wdDebug w)

/-- The distinguishable errors the NIF layer returns
(`rustler::Error::Term` carrying a formatted message; each constructor
corresponds to one `format!` site in lib.rs and carries the data the
message interpolates). -/
inductive NifError
  | parseFailed (e : ParseError)
  | invalidFrequency (s : String)
  | invalidWeekStart (s : String)
  | invalidMonth (l : List Nat)
  | invalidWeekday (s : String)
  | invalidDateTime (s : String)
  | engineInvalid (s : String)
deriving DecidableEq

/-- lib.rs lines 427-448: the per-entry conversion inside the
`by_weekday` map of `properties_to_rrule`; an unrecognized weekday code
yields the "Invalid weekday: {s}" error carrying the offending code. -/
def parseExternalNW : ExternalNWeekday → Except String NWeekday
  | .Tuple n s =>
    match weekdayFromStr s with
    | some w => .ok (.nth n w)
    | none => .error s
  | .Str s =>
    match weekdayFromStr s with
    | some w => .ok (.every w)
    | none => .error s

/-- lib.rs lines 387-482: `properties_to_rrule`.  Checks, in order: the
frequency string (exact match of the seven title-case names), the week
start (`parse::<rrule::Weekday>`), every `by_month` entry
(`Month::try_from`, the error carrying the whole `by_month` vector), and
every `by_weekday` entry (first offender wins); then builds the
unvalidated rule, the `by_month` setter storing the month numbers back. -/
def properties_to_rrule (p : Properties) : Except NifError Unval :=
  match freqOfDebug p.freq with
  | none => .error (.invalidFrequency p.freq)
  | some frequency =>
    match weekdayFromStr p.week_start with
    | none => .error (.invalidWeekStart p.week_start)
    | some week_start =>
      match mapO monthTryFrom p.by_month with
      | none => .error (.invalidMonth p.by_month)
      | some by_month =>
        match mapE parseExternalNW p.by_weekday with
        | .error s => .error (.invalidWeekday s)
        | .ok by_weekday =>
          .ok
            { freq := frequency
              interval := p.interval
              count := p.count
              «until» := p.«until»
              week_start := week_start
              by_set_pos := p.by_set_pos
              by_month := by_month.map monthNumber
              by_month_day := p.by_month_day
              by_year_day := p.by_year_day
              by_week_no := p.by_week_no
              by_weekday := by_weekday
              by_hour := p.by_hour
              by_minute := p.by_minute
              by_second := p.by_second }

/-- lib.rs lines 213-233: the `Ok` branch of `string_to_rrule`, reading
every field of the parsed rule back through the getters;
`format!("{:?}", ...)` produces the title-case frequency and three-letter
week-start names. -/
def rruleToProperties (r : Unval) : Properties :=
  { freq := freqDebug r.freq
    interval := r.interval
    count := r.count
    «until» := r.«until»
    week_start := wdDebug r.week_start
    by_set_pos := r.by_set_pos
    by_month := r.by_month
    by_month_day := r.by_month_day
    by_year_day := r.by_year_day
    by_week_no := r.by_week_no
    by_weekday := r.by_weekday.map to_external_n_weekday
    by_hour := r.by_hour
    by_minute := r.by_minute
    by_second := r.by_second }

/-- lib.rs lines 211-239: `string_to_rrule`.  Parsing is delegated to the
external crate (`rruleParse`, modelled from the spec); a parse failure
becomes a returned error ("Error parsing rrule: {:?}"). -/
def string_to_rrule (s : String) : Except NifError Properties :=
  match rruleParse s.data with
  | .ok r => .ok (rruleToProperties r)
  | .error e => .error (.parseFailed e)

/-- lib.rs lines 279-287: `rrule_to_string`.  On successful construction
the rule's `Display` text is returned; a construction failure is wrapped
("Error converting properties to rrule: {:?}") and returned. -/
def rrule_to_string (p : Properties) : Except NifError String :=
  match properties_to_rrule p with
  | .ok r => .ok (String.mk (displayChars r))
  | .error e => .error e

/-- Modelled from the spec: the external engine's validation
(`rrule.validate(dt_start)`, not under src/).  §4.2 delegates
numeric-range legality of the remaining list fields to the engine; the
deeper cross-field feasibility checks of the engine are beyond this
model and are not relied on by any theorem. -/
def engineValidate (r : Unval) (dtstart : DateTime) : Except String Unit :=
  if r.by_hour.any (fun h => 24 ≤ h) then .error "by_hour out of range"
  else if r.by_minute.any (fun m => 60 ≤ m) then .error "by_minute out of range"
  else if r.by_second.any (fun s => 60 ≤ s) then .error "by_second out of range"
  else if r.by_month_day.any (fun d => d = 0 ∨ d < -31 ∨ 31 < d) then
    .error "by_month_day out of range"
  else if r.by_year_day.any (fun d => d = 0 ∨ d < -366 ∨ 366 < d) then
    .error "by_year_day out of range"
  else if r.by_week_no.any (fun w => w = 0 ∨ w < -53 ∨ 53 < w) then
    .error "by_week_no out of range"
  else if dtstart.year = 0 then .error "invalid start date"
  else .ok ()

/-- lib.rs lines 328-352: `validate_rrule`.  The start string is parsed
first; failure returns "Invalid datetime: {}" without attempting
construction.  Then `properties_to_rrule` runs, its error returned as is;
only then is the engine's validation consulted, its error wrapped as
"Invalid rrule: {:?}". -/
def validate_rrule (p : Properties) (dt_start : String) : Except NifError Unit :=
  match parseRfc3339 dt_start.data with
  | none => .error (.invalidDateTime dt_start)
  | some dt =>
    match properties_to_rrule p with
    | .error e => .error e
    | .ok r =>
      match engineValidate r dt with
      | .ok _ => .ok ()
      | .error e => .error (.engineInvalid e)

/-! ## The Rustler decode boundary for `until`

lib.rs lines 54-63: `impl Decoder for MaybeDateTime`. -/

/-- The shapes of Elixir terms the decoder distinguishes. -/
inductive ElixirTerm
  | nil
  | str (s : String)
  | int (n : Int)
  | other
deriving DecidableEq

/-- The possible outcomes of a Rustler `decode` call: a decoded value, a
`BadArg` error returned to Elixir, or a crash of the native code. -/
inductive DecodeOutcome (α : Type)
  | ok (a : α)
  | badArg
  | aborts
deriving DecidableEq

/-- lib.rs lines 54-63: the decoder for `MaybeDateTime`.  `nil` decodes
to `None`; a string is fed to `DateTime::parse_from_rfc3339(&dt).unwrap()`
— the `.unwrap()` crashes the process when the string is not a valid
RFC 3339 timestamp (`aborts`); any other term is `BadArg`. -/
def decodeMaybeDateTime : ElixirTerm → DecodeOutcome (Option DateTime)
  | .nil => .ok none
  | .str s =>
    match parseRfc3339 s.data with
    | some dt => .ok (some dt)
    | none => .aborts
  | _ => .badArg

/-- lib.rs lines 74-83: the decoder for `MaybeCount`, for contrast: it
has no unwrap and never aborts. -/
def decodeMaybeCount : ElixirTerm → DecodeOutcome (Option Nat)
  | .nil => .ok none
  | .int n => if 0 ≤ n ∧ n ≤ 4294967295 then .ok (some n.toNat) else .badArg
  | _ => .badArg

/-- The weekday-code string of an Elixir-side weekday entry (the string
the `by_weekday` map of `properties_to_rrule` parses, and the payload of
its "Invalid weekday" error). -/
def enwCode : ExternalNWeekday → String
  | .Tuple _ s => s
  | .Str s => s

/-- Success test on `Except`, as used by the theorems below. -/
def isOkE : Except ε α → Bool
  | .ok _ => true
  | .error _ => false

/-- Whether a NIF-layer error is one of `properties_to_rrule`'s own
construction checks (as opposed to a parse failure, a start-date failure
or an engine-reported failure). -/
def isConstructionError : NifError → Bool
  | .invalidFrequency _ => true
  | .invalidWeekStart _ => true
  | .invalidMonth _ => true
  | .invalidWeekday _ => true
  | _ => false

/-- Ordinal range of a `BYDAY` entry as the modelled parser admits it
(`i16` width for the `Nth` ordinal). -/
def nwGood : NWeekday → Prop
  | .every _ => True
  | .nth n _ => -32768 ≤ n ∧ n ≤ 32767

/-- The range invariant of every segment the modelled parser produces. -/
def GoodKV : KV → Prop
  | .freq _ => True
  | .interval n => 1 ≤ n ∧ n ≤ 65535
  | .count n => n ≤ 4294967295
  | .«until» dt => dtValid dt
  | .wkst _ => True
  | .bysetpos l => ∀ x ∈ l, -2147483648 ≤ x ∧ x ≤ 2147483647
  | .bymonth l => ∀ x ∈ l, 1 ≤ x ∧ x ≤ 12
  | .bymonthday l => ∀ x ∈ l, -128 ≤ x ∧ x ≤ 127
  | .byyearday l => ∀ x ∈ l, -32768 ≤ x ∧ x ≤ 32767
  | .byweekno l => ∀ x ∈ l, -128 ≤ x ∧ x ≤ 127
  | .byday l => ∀ x ∈ l, nwGood x
  | .byhour l => ∀ x ∈ l, x ≤ 255
  | .byminute l => ∀ x ∈ l, x ≤ 255
  | .bysecond l => ∀ x ∈ l, x ≤ 255

/-- The invariant every rule produced by the modelled parser satisfies:
each field is inside the width/range the corresponding segment parser
checks, and the defaults are in range too. -/
def Good (r : Unval) : Prop :=
  1 ≤ r.interval ∧ r.interval ≤ 65535 ∧
  (∀ c, r.count = some c → c ≤ 4294967295) ∧
  (∀ dt, r.«until» = some dt → dtValid dt) ∧
  (∀ x ∈ r.by_set_pos, -2147483648 ≤ x ∧ x ≤ 2147483647) ∧
  (∀ x ∈ r.by_month, 1 ≤ x ∧ x ≤ 12) ∧
  (∀ x ∈ r.by_month_day, -128 ≤ x ∧ x ≤ 127) ∧
  (∀ x ∈ r.by_year_day, -32768 ≤ x ∧ x ≤ 32767) ∧
  (∀ x ∈ r.by_week_no, -128 ≤ x ∧ x ≤ 127) ∧
  (∀ x ∈ r.by_weekday, nwGood x) ∧
  (∀ x ∈ r.by_hour, x ≤ 255) ∧
  (∀ x ∈ r.by_minute, x ≤ 255) ∧
  (∀ x ∈ r.by_second, x ≤ 255)

/-- The parsed segment of an optional scalar field. -/
def optKV (f : α → KV) (o : Option α) : List KV :=
  match o with
  | none => []
  | some a => [f a]

/-- The parsed segment of a list field: nothing when the list is empty. -/
def consKV (kv : KV) (l : List α) : List KV :=
  match l with
  | [] => []
  | _ => [kv]

/-- The parsed segments of a rule's canonical serialization, block by
block in the order of `fieldSegs`. -/
def kvsOf (r : Unval) : List KV :=
  [KV.freq r.freq] ++
  (if r.interval = 1 then [] else [KV.interval r.interval]) ++
  optKV KV.count r.count ++
  optKV KV.«until» r.«until» ++
  (if r.week_start = .mon then [] else [KV.wkst r.week_start]) ++
  consKV (KV.bysetpos r.by_set_pos) r.by_set_pos ++
  consKV (KV.bymonth r.by_month) r.by_month ++
  consKV (KV.bymonthday r.by_month_day) r.by_month_day ++
  consKV (KV.byyearday r.by_year_day) r.by_year_day ++
  consKV (KV.byweekno r.by_week_no) r.by_week_no ++
  consKV (KV.byday r.by_weekday) r.by_weekday ++
  consKV (KV.byhour r.by_hour) r.by_hour ++
  consKV (KV.byminute r.by_minute) r.by_minute ++
  consKV (KV.bysecond r.by_second) r.by_second

/-- Whether an Elixir-side weekday entry carries an unrecognized code
(the condition on which the `by_weekday` map of `properties_to_rrule`
fails). -/
def badWeekdayEntry (e : ExternalNWeekday) : Bool :=
  (weekdayFromStr (enwCode e)).isNone

/-! ## Concrete values used by the claim witnesses and counterexamples -/

/-- The `Properties` of `FREQ=DAILY;INTERVAL=2;COUNT=10` (spec §8). -/
def exDaily : Properties :=
  { freq := "Daily", interval := 2, count := some 10, «until» := none,
    week_start := "Mon", by_set_pos := [], by_month := [], by_month_day := [],
    by_year_day := [], by_week_no := [], by_weekday := [], by_hour := [],
    by_minute := [], by_second := [] }

/-- The `Properties` of `FREQ=MONTHLY;BYDAY=-1FR` (spec §8): the single
`Nth(-1, Friday)` entry, encoded Elixir-side as the tuple `(-1, "Fri")`. -/
def exMonthly : Properties :=
  { freq := "Monthly", interval := 1, count := none, «until» := none,
    week_start := "Mon", by_set_pos := [], by_month := [], by_month_day := [],
    by_year_day := [], by_week_no := [], by_weekday := [.Tuple (-1) "Fri"],
    by_hour := [], by_minute := [], by_second := [] }

/-- The `Properties` of `FREQ=WEEKLY;BYDAY=MO,WE,FR` (spec §8). -/
def exWeekly : Properties :=
  { freq := "Weekly", interval := 1, count := none, «until» := none,
    week_start := "Mon", by_set_pos := [], by_month := [], by_month_day := [],
    by_year_day := [], by_week_no := [],
    by_weekday := [.Str "Mon", .Str "Wed", .Str "Fri"], by_hour := [],
    by_minute := [], by_second := [] }

/-- A hand-built `Properties` whose `by_hour` holds the out-of-range 99
(the example of spec §8's field-range property). -/
def exByHour99 : Properties :=
  { freq := "Daily", interval := 1, count := none, «until» := none,
    week_start := "Mon", by_set_pos := [], by_month := [], by_month_day := [],
    by_year_day := [], by_week_no := [], by_weekday := [], by_hour := [99],
    by_minute := [], by_second := [] }

/-- A hand-built `Properties` whose `by_month` holds the out-of-range 13. -/
def exMonth13 : Properties :=
  { freq := "Daily", interval := 1, count := none, «until» := none,
    week_start := "Mon", by_set_pos := [], by_month := [13], by_month_day := [],
    by_year_day := [], by_week_no := [], by_weekday := [], by_hour := [],
    by_minute := [], by_second := [] }

/-- A hand-built `Properties` whose `week_start` is the upper-case "MON"
— not the debug rendering "Mon" of any weekday. -/
def exWeekStartMON : Properties :=
  { freq := "Daily", interval := 1, count := none, «until» := none,
    week_start := "MON", by_set_pos := [], by_month := [], by_month_day := [],
    by_year_day := [], by_week_no := [], by_weekday := [], by_hour := [],
    by_minute := [], by_second := [] }

/-- A hand-built `Properties` whose `freq` is the RFC token "DAILY"
rather than the title-case "Daily". -/
def exFreqDAILY : Properties :=
  { freq := "DAILY", interval := 1, count := none, «until» := none,
    week_start := "Mon", by_set_pos := [], by_month := [], by_month_day := [],
    by_year_day := [], by_week_no := [], by_weekday := [], by_hour := [],
    by_minute := [], by_second := [] }

/-- A hand-built `Properties` with interval 0 and otherwise valid fields. -/
def exZeroInterval : Properties :=
  { freq := "Daily", interval := 0, count := none, «until» := none,
    week_start := "Mon", by_set_pos := [], by_month := [], by_month_day := [],
    by_year_day := [], by_week_no := [], by_weekday := [], by_hour := [],
    by_minute := [], by_second := [] }

/-! # Lemmas

## Digits and decimal round trips -/

theorem digChar_isDigit : ∀ d, d < 10 → (digChar d).isDigit = true := by decide

theorem digVal_digChar : ∀ d, d < 10 → digVal (digChar d) = d := by decide

theorem digChar_ne_minus : ∀ d, d < 10 → digChar d ≠ '-' := by decide

theorem natCharsAux_props (fuel : Nat) :
    ∀ n, n < fuel →
      natCharsAux fuel n ≠ [] ∧ (∀ c ∈ natCharsAux fuel n, c.isDigit = true) ∧
        ∀ a : Nat, (natCharsAux fuel n).foldl digStep a =
          a * 10 ^ (natCharsAux fuel n).length + n := by
  induction fuel with
  | zero => intro n h; omega
  | succ f ih =>
    intro n h
    by_cases h10 : n < 10
    · refine ⟨by simp [natCharsAux, h10], ?_, ?_⟩
      · intro c hc
        simp only [natCharsAux, if_pos h10, List.mem_singleton] at hc
        subst hc; exact digChar_isDigit n h10
      · intro a
        simp only [natCharsAux, if_pos h10, List.foldl_cons, List.foldl_nil,
          List.length_singleton, pow_one, digStep]
        rw [digVal_digChar n h10]
    · have hdiv : n / 10 < f := by omega
      obtain ⟨hne, hdig, hfold⟩ := ih (n / 10) hdiv
      refine ⟨by simp [natCharsAux, h10], ?_, ?_⟩
      · intro c hc
        simp only [natCharsAux, if_neg h10, List.mem_append, List.mem_singleton] at hc
        rcases hc with hc | hc
        · exact hdig c hc
        · subst hc; exact digChar_isDigit _ (Nat.mod_lt n (by norm_num))
      · intro a
        simp only [natCharsAux, if_neg h10, List.foldl_append, List.foldl_cons,
          List.foldl_nil, List.length_append, List.length_singleton]
        rw [hfold a]
        simp only [digStep, digVal_digChar _ (Nat.mod_lt n (by norm_num))]
        have hsplit : n / 10 * 10 + n % 10 = n := by omega
        have hpow : 10 ^ ((natCharsAux f (n / 10)).length + 1) =
            10 ^ (natCharsAux f (n / 10)).length * 10 := pow_succ 10 _
        rw [hpow]
        generalize (10 : Nat) ^ (natCharsAux f (n / 10)).length = k
        have : a * (k * 10) = a * k * 10 := by ring
        omega

theorem natChars_ne_nil (n : Nat) : natChars n ≠ [] :=
  (natCharsAux_props (n + 1) n (by omega)).1

theorem natChars_digits (n : Nat) : ∀ c ∈ natChars n, c.isDigit = true :=
  (natCharsAux_props (n + 1) n (by omega)).2.1

theorem readNat_natChars (n : Nat) : readNat (natChars n) = some n := by
  have h := natCharsAux_props (n + 1) n (by omega)
  unfold readNat natChars
  rw [if_pos ⟨h.1, List.all_eq_true.mpr (h.2.1)⟩]
  rw [h.2.2 0]
  norm_num

theorem natChars_head_not_minus (n : Nat) :
    (natChars n).head? ≠ some '-' := by
  intro hh
  have hmem : '-' ∈ natChars n := by
    cases hl : natChars n with
    | nil => rw [hl] at hh; simp at hh
    | cons c cs =>
      rw [hl] at hh
      simp only [List.head?_cons, Option.some.injEq] at hh
      subst hh
      exact List.mem_cons_self _ _
  exact absurd (natChars_digits n '-' hmem) (by decide)

theorem readInt_intChars (n : Int) : readInt (intChars n) = some n := by
  cases n with
  | ofNat m =>
    unfold intChars readInt
    rw [if_neg (natChars_head_not_minus m)]
    rw [readNat_natChars m]
    rfl
  | negSucc m =>
    unfold intChars readInt
    simp only [List.head?_cons, if_pos rfl, List.tail_cons]
    rw [readNat_natChars (m + 1)]
    rfl

theorem mem_intChars_ord (n : Int) : ∀ c ∈ intChars n, ordChar c = true := by
  intro c hc
  cases n with
  | ofNat m =>
    simp only [intChars] at hc
    simp [ordChar, natChars_digits m c hc]
  | negSucc m =>
    simp only [intChars, List.mem_cons] at hc
    rcases hc with hc | hc
    · subst hc; rfl
    · simp [ordChar, natChars_digits (m + 1) c hc]

/-! ## Separator splitting and joining -/

theorem splitSep_ne_nil (c : Char) (l : List Char) : splitSep c l ≠ [] := by
  induction l with
  | nil => simp [splitSep]
  | cons x xs ih =>
    by_cases hx : x = c
    · simp [splitSep, hx]
    · simp only [splitSep, if_neg hx]
      cases h : splitSep c xs with
      | nil => simp
      | cons a as => simp

theorem splitSep_of_not_mem (c : Char) (l : List Char) (h : c ∉ l) :
    splitSep c l = [l] := by
  induction l with
  | nil => rfl
  | cons x xs ih =>
    have hx : x ≠ c := fun he => h (he ▸ List.mem_cons_self x xs)
    have hxs : c ∉ xs := fun hm => h (List.mem_cons_of_mem x hm)
    simp only [splitSep, if_neg hx, ih hxs]

theorem splitSep_cons_ne (c x : Char) (xs : List Char) (hx : x ≠ c) :
    splitSep c (x :: xs) =
      match splitSep c xs with
      | [] => [[x]]
      | h :: t => (x :: h) :: t := by
  rw [splitSep]
  rw [if_neg hx]

theorem splitSep_append (c : Char) (l₁ l₂ : List Char) (h : c ∉ l₁) :
    splitSep c (l₁ ++ c :: l₂) = l₁ :: splitSep c l₂ := by
  induction l₁ with
  | nil => simp [splitSep]
  | cons x xs ih =>
    have hx : x ≠ c := fun he => h (he ▸ List.mem_cons_self x xs)
    have hxs : c ∉ xs := fun hm => h (List.mem_cons_of_mem x hm)
    rw [List.cons_append, splitSep_cons_ne c x _ hx, ih hxs]

theorem splitSep_joinSep (c : Char) :
    ∀ parts : List (List Char), parts ≠ [] → (∀ p ∈ parts, c ∉ p) →
      splitSep c (joinSep c parts) = parts := by
  intro parts
  induction parts with
  | nil => intro h; exact absurd rfl h
  | cons x xs ih =>
    intro _ hall
    cases xs with
    | nil =>
      simp only [joinSep]
      exact splitSep_of_not_mem c x (hall x (List.mem_cons_self _ _))
    | cons y ys =>
      simp only [joinSep]
      rw [splitSep_append c x _ (hall x (List.mem_cons_self _ _))]
      rw [ih (by simp) (fun p hp => hall p (List.mem_cons_of_mem x hp))]

theorem splitFirst_append (c : Char) (key val : List Char) (h : c ∉ key) :
    splitFirst c (key ++ c :: val) = some (key, val) := by
  induction key with
  | nil => simp [splitFirst]
  | cons x xs ih =>
    have hx : x ≠ c := fun he => h (he ▸ List.mem_cons_self x xs)
    have hxs : c ∉ xs := fun hm => h (List.mem_cons_of_mem x hm)
    rw [List.cons_append]
    unfold splitFirst
    rw [if_neg hx, ih hxs]
    rfl

/-! ## Short-circuiting traversals -/

theorem mapE_append (f : α → Except ε β) (l₁ l₂ : List α) (ys₁ ys₂ : List β)
    (h₁ : mapE f l₁ = .ok ys₁) (h₂ : mapE f l₂ = .ok ys₂) :
    mapE f (l₁ ++ l₂) = .ok (ys₁ ++ ys₂) := by
  induction l₁ generalizing ys₁ with
  | nil =>
    simp only [mapE, Except.ok.injEq] at h₁
    subst h₁; simpa using h₂
  | cons x xs ih =>
    rw [List.cons_append]
    unfold mapE at h₁ ⊢
    cases hfx : f x with
    | error e => rw [hfx] at h₁; cases h₁
    | ok y =>
      rw [hfx] at h₁
      cases hrest : mapE f xs with
      | error e => rw [hrest] at h₁; cases h₁
      | ok ys =>
        rw [hrest] at h₁
        simp only [Except.ok.injEq] at h₁
        subst h₁
        rw [ih ys hrest]
        rfl

theorem mapE_of_map (f : β → Except ε α) (g : α → β) (l : List α)
    (h : ∀ x ∈ l, f (g x) = .ok x) : mapE f (l.map g) = .ok l := by
  induction l with
  | nil => rfl
  | cons x xs ih =>
    simp only [List.map_cons, mapE, h x (List.mem_cons_self _ _),
      ih (fun y hy => h y (List.mem_cons_of_mem x hy))]

theorem mapE_ok_forall {f : α → Except ε β} {l : List α} {ys : List β}
    (h : mapE f l = .ok ys) (P : β → Prop)
    (hP : ∀ x y, f x = .ok y → P y) : ∀ y ∈ ys, P y := by
  induction l generalizing ys with
  | nil =>
    simp only [mapE, Except.ok.injEq] at h
    subst h; intro y hy; cases hy
  | cons x xs ih =>
    simp only [mapE] at h
    cases hfx : f x with
    | error e => rw [hfx] at h; cases h
    | ok y =>
      rw [hfx] at h
      cases hrest : mapE f xs with
      | error e => rw [hrest] at h; cases h
      | ok ys' =>
        rw [hrest] at h
        simp only [Except.ok.injEq] at h
        subst h
        intro z hz
        rcases List.mem_cons.mp hz with hz | hz
        · subst hz; exact hP x z hfx
        · exact ih hrest z hz

theorem mapO_of_forall (f : α → Option β) (g : β → α) (l : List α)
    (h : ∀ x ∈ l, ∃ y, f x = some y ∧ g y = x) :
    ∃ ys, mapO f l = some ys ∧ ys.map g = l := by
  induction l with
  | nil => exact ⟨[], rfl, rfl⟩
  | cons x xs ih =>
    obtain ⟨y, hy, hgy⟩ := h x (List.mem_cons_self _ _)
    obtain ⟨ys, hys, hgys⟩ := ih (fun z hz => h z (List.mem_cons_of_mem x hz))
    exact ⟨y :: ys, by simp [mapO, hy, hys], by simp [hgy, hgys]⟩

theorem mapO_eq_none (f : α → Option β) (l : List α) (x : α)
    (hx : x ∈ l) (hfx : f x = none) : mapO f l = none := by
  induction l with
  | nil => cases hx
  | cons y ys ih =>
    rcases List.mem_cons.mp hx with h | h
    · subst h; simp [mapO, hfx]
    · simp only [mapO]
      cases hfy : f y with
      | none => rfl
      | some z => rw [ih h]

/-! ## Table round trips -/

theorem tokenToFreq_freqToken (f : Frequency) :
    tokenToFreq (freqToken f) = some f := by cases f <;> rfl

theorem freqOfDebug_freqDebug (f : Frequency) :
    freqOfDebug (freqDebug f) = some f := by cases f <;> rfl

theorem codeToWd_wdCode (w : Weekday) : codeToWd (wdCode w) = some w := by
  cases w <;> rfl

theorem weekdayFromStr_wdDebug (w : Weekday) :
    weekdayFromStr (wdDebug w) = some w := by cases w <;> rfl

theorem parseExternalNW_toExternal (x : NWeekday) :
    parseExternalNW (to_external_n_weekday x) = .ok x := by
  cases x with
  | every w => cases w <;> rfl
  | nth n w => cases w <;> rfl

theorem monthTryFrom_range (m : Nat) (h1 : 1 ≤ m) (h2 : m ≤ 12) :
    ∃ mo, monthTryFrom m = some mo ∧ monthNumber mo = m := by
  interval_cases m <;> exact ⟨_, rfl, rfl⟩

theorem monthTryFrom_none (m : Nat) (h : ¬(1 ≤ m ∧ m ≤ 12)) :
    monthTryFrom m = none := by
  unfold monthTryFrom
  split <;> first | rfl | omega

/-! ## Character classes of the serialized text -/

theorem digit_ne_seps (c : Char) (h : c.isDigit = true) :
    c ≠ ';' ∧ c ≠ ',' ∧ c ≠ '=' := by
  refine ⟨?_, ?_, ?_⟩ <;> (intro he; subst he; exact absurd h (by decide))

theorem natChars_sep_free (n : Nat) :
    ';' ∉ natChars n ∧ ',' ∉ natChars n ∧ '=' ∉ natChars n := by
  refine ⟨?_, ?_, ?_⟩ <;>
    (intro hmem; have hd := natChars_digits n _ hmem; exact absurd hd (by decide))

theorem intChars_sep_free (n : Int) :
    ';' ∉ intChars n ∧ ',' ∉ intChars n ∧ '=' ∉ intChars n := by
  refine ⟨?_, ?_, ?_⟩ <;>
    (intro hmem; have hd := mem_intChars_ord n _ hmem; exact absurd hd (by decide))

theorem wdCode_sep_free (w : Weekday) :
    ∀ c ∈ wdCode w, c ≠ ';' ∧ c ≠ ',' ∧ c ≠ '=' := by
  cases w <;> decide

theorem nwdChars_sep_free (x : NWeekday) :
    ';' ∉ nwdChars x ∧ ',' ∉ nwdChars x ∧ '=' ∉ nwdChars x := by
  cases x with
  | every w =>
    refine ⟨?_, ?_, ?_⟩ <;>
      · intro hmem
        simp only [nwdChars] at hmem
        have := wdCode_sep_free w _ hmem
        simp at this
  | nth n w =>
    refine ⟨?_, ?_, ?_⟩ <;>
      · intro hmem
        simp only [nwdChars, List.mem_append] at hmem
        rcases hmem with hmem | hmem
        · have hd := mem_intChars_ord n _ hmem; exact absurd hd (by decide)
        · have := wdCode_sep_free w _ hmem; simp at this

theorem fmtRfc3339_no_semi (dt : DateTime) : ';' ∉ fmtRfc3339 dt := by
  intro hmem
  simp only [fmtRfc3339, pad4, pad2, List.cons_append, List.nil_append,
    List.mem_cons, List.not_mem_nil, or_false] at hmem
  have hdig : ∀ k : Nat, (';' : Char) = digChar (k % 10) → False := by
    intro k he
    have := digChar_isDigit (k % 10) (Nat.mod_lt _ (by norm_num))
    rw [← he] at this
    exact absurd this (by decide)
  rcases hmem with h | h | h | h | h | h | h | h | h | h | h | h | h | h | h | h | h | h | h | h <;>
    first
      | exact hdig _ h
      | exact absurd h (by decide)

/-! ## The RFC 3339 round trip -/

theorem parse_fmtRfc3339 (dt : DateTime) (h : dtValid dt) :
    parseRfc3339 (fmtRfc3339 dt) = some dt := by
  obtain ⟨y, mo, d, hr, mi, s⟩ := dt
  obtain ⟨h1, h2, h3, h4, h5, h6, h7, h8⟩ := h
  simp only at h1 h2 h3 h4 h5 h6 h7 h8
  have hdig : ∀ k : Nat, (digChar (k % 10)).isDigit = true := fun k =>
    digChar_isDigit _ (Nat.mod_lt _ (by norm_num))
  have hval : ∀ k : Nat, digVal (digChar (k % 10)) = k % 10 := fun k =>
    digVal_digChar _ (Nat.mod_lt _ (by norm_num))
  unfold fmtRfc3339 pad4 pad2
  simp only [List.cons_append, List.nil_append]
  rw [parseRfc3339]
  rw [if_pos (by simp only [List.all_cons, List.all_nil, Bool.and_eq_true]; simp [hdig])]
  simp only [hval]
  have hy : 1000 * (y / 1000 % 10) + 100 * (y / 100 % 10) + 10 * (y / 10 % 10) + y % 10 = y := by
    omega
  have hmo : 10 * (mo / 10 % 10) + mo % 10 = mo := by omega
  have hd : 10 * (d / 10 % 10) + d % 10 = d := by omega
  have hhr : 10 * (hr / 10 % 10) + hr % 10 = hr := by omega
  have hmi : 10 * (mi / 10 % 10) + mi % 10 = mi := by omega
  have hs : 10 * (s / 10 % 10) + s % 10 = s := by omega
  simp only [hy, hmo, hd, hhr, hmi, hs]
  unfold checkedDT
  rw [if_pos ⟨h1, h2, h3, h4, h5, h6, h7, h8⟩]


/-! ## `BYDAY` token and value-list round trips -/

theorem takeWhile_append_of (p : Char → Bool) (l₁ l₂ : List Char)
    (h1 : ∀ c ∈ l₁, p c = true) (h2 : ∀ c, l₂.head? = some c → p c = false) :
    (l₁ ++ l₂).takeWhile p = l₁ ∧ (l₁ ++ l₂).dropWhile p = l₂ := by
  induction l₁ with
  | nil =>
    simp only [List.nil_append]
    cases l₂ with
    | nil => exact ⟨rfl, rfl⟩
    | cons c cs =>
      have := h2 c rfl
      simp [List.takeWhile_cons, List.dropWhile_cons, this]
  | cons x xs ih =>
    have hx := h1 x (List.mem_cons_self _ _)
    obtain ⟨iht, ihd⟩ := ih (fun c hc => h1 c (List.mem_cons_of_mem x hc))
    simp [List.takeWhile_cons, List.dropWhile_cons, hx, iht, ihd]

theorem intChars_ne_nil (n : Int) : intChars n ≠ [] := by
  cases n with
  | ofNat m => exact natChars_ne_nil m
  | negSucc m => simp [intChars]

theorem wdCode_head_not_ord (w : Weekday) :
    ∀ c, (wdCode w).head? = some c → ordChar c = false := by
  cases w <;> intro c hc <;>
    simp only [wdCode, List.head?_cons, Option.some.injEq] at hc <;>
    exact hc ▸ rfl

theorem parseNWdToken_every (w : Weekday) :
    parseNWdToken (nwdChars (.every w)) = .ok (.every w) := by
  cases w <;> rfl

theorem parseNWdToken_nth (n : Int) (w : Weekday)
    (h1 : -32768 ≤ n) (h2 : n ≤ 32767) :
    parseNWdToken (nwdChars (.nth n w)) = .ok (.nth n w) := by
  obtain ⟨ht, hd⟩ := takeWhile_append_of ordChar (intChars n) (wdCode w)
    (mem_intChars_ord n) (wdCode_head_not_ord w)
  unfold parseNWdToken nwdChars
  simp only [ht, hd]
  simp [intChars_ne_nil n, readInt_intChars n, codeToWd_wdCode w, h1, h2]

theorem parseNWdToken_nwd (x : NWeekday) (h : nwGood x) :
    parseNWdToken (nwdChars x) = .ok x := by
  cases x with
  | every w => exact parseNWdToken_every w
  | nth n w => exact parseNWdToken_nth n w h.1 h.2

theorem splitSep_comma_map (f : α → List Char) (l : List α) (hne : l ≠ [])
    (hf : ∀ x ∈ l, ',' ∉ f x) :
    splitSep ',' (joinSep ',' (l.map f)) = l.map f := by
  apply splitSep_joinSep
  · simp [hne]
  · intro p hp
    obtain ⟨x, hx, rfl⟩ := List.mem_map.mp hp
    exact hf x hx

theorem parseNatList_join (key : String) (lo hi : Nat) (l : List Nat)
    (hne : l ≠ []) (hb : ∀ x ∈ l, lo ≤ x ∧ x ≤ hi) :
    parseNatList key lo hi (joinSep ',' (l.map natChars)) = .ok l := by
  unfold parseNatList
  rw [splitSep_comma_map natChars l hne (fun x _ => (natChars_sep_free x).2.1)]
  apply mapE_of_map
  intro x hx
  simp [readNat_natChars x, (hb x hx).1, (hb x hx).2]

theorem parseIntList_join (key : String) (lo hi : Int) (l : List Int)
    (hne : l ≠ []) (hb : ∀ x ∈ l, lo ≤ x ∧ x ≤ hi) :
    parseIntList key lo hi (joinSep ',' (l.map intChars)) = .ok l := by
  unfold parseIntList
  rw [splitSep_comma_map intChars l hne (fun x _ => (intChars_sep_free x).2.1)]
  apply mapE_of_map
  intro x hx
  simp [readInt_intChars x, (hb x hx).1, (hb x hx).2]

theorem parseNWd_join (l : List NWeekday) (hne : l ≠ [])
    (hb : ∀ x ∈ l, nwGood x) :
    mapE parseNWdToken (splitSep ',' (joinSep ',' (l.map nwdChars))) = .ok l := by
  rw [splitSep_comma_map nwdChars l hne (fun x _ => (nwdChars_sep_free x).2.1)]
  exact mapE_of_map _ _ _ (fun x hx => parseNWdToken_nwd x (hb x hx))


/-! ## Parsing each canonical segment -/

theorem seg_freq (f : Frequency) :
    parseSegKV (['F','R','E','Q'] ++ '=' :: freqToken f) = .ok (.freq f) := by
  unfold parseSegKV
  rw [splitFirst_append '=' _ _ (by decide)]
  simp [parseKeyVal, tokenToFreq_freqToken f]

theorem seg_interval (n : Nat) (h1 : 1 ≤ n) (h2 : n ≤ 65535) :
    parseSegKV (['I','N','T','E','R','V','A','L'] ++ '=' :: natChars n) =
      .ok (.interval n) := by
  unfold parseSegKV
  rw [splitFirst_append '=' _ _ (by decide)]
  simp [parseKeyVal, readNat_natChars n, h1, h2]

theorem seg_count (n : Nat) (h : n ≤ 4294967295) :
    parseSegKV (['C','O','U','N','T'] ++ '=' :: natChars n) = .ok (.count n) := by
  unfold parseSegKV
  rw [splitFirst_append '=' _ _ (by decide)]
  simp [parseKeyVal, readNat_natChars n, h]

theorem seg_until (dt : DateTime) (h : dtValid dt) :
    parseSegKV (['U','N','T','I','L'] ++ '=' :: fmtRfc3339 dt) =
      .ok (.«until» dt) := by
  unfold parseSegKV
  rw [splitFirst_append '=' _ _ (by decide)]
  simp [parseKeyVal, parse_fmtRfc3339 dt h]

theorem seg_wkst (w : Weekday) :
    parseSegKV (['W','K','S','T'] ++ '=' :: wdCode w) = .ok (.wkst w) := by
  unfold parseSegKV
  rw [splitFirst_append '=' _ _ (by decide)]
  simp [parseKeyVal, codeToWd_wdCode w]

theorem seg_bysetpos (l : List Int) (hne : l ≠ [])
    (hb : ∀ x ∈ l, -2147483648 ≤ x ∧ x ≤ 2147483647) :
    parseSegKV (['B','Y','S','E','T','P','O','S'] ++ '=' :: joinSep ',' (l.map intChars)) =
      .ok (.bysetpos l) := by
  unfold parseSegKV
  rw [splitFirst_append '=' _ _ (by decide)]
  simp [parseKeyVal, Except.map, parseIntList_join "BYSETPOS" _ _ l hne hb]

theorem seg_bymonth (l : List Nat) (hne : l ≠ [])
    (hb : ∀ x ∈ l, 1 ≤ x ∧ x ≤ 12) :
    parseSegKV (['B','Y','M','O','N','T','H'] ++ '=' :: joinSep ',' (l.map natChars)) =
      .ok (.bymonth l) := by
  unfold parseSegKV
  rw [splitFirst_append '=' _ _ (by decide)]
  simp [parseKeyVal, Except.map, parseNatList_join "BYMONTH" _ _ l hne hb]

theorem seg_bymonthday (l : List Int) (hne : l ≠ [])
    (hb : ∀ x ∈ l, -128 ≤ x ∧ x ≤ 127) :
    parseSegKV (['B','Y','M','O','N','T','H','D','A','Y'] ++ '=' :: joinSep ',' (l.map intChars)) =
      .ok (.bymonthday l) := by
  unfold parseSegKV
  rw [splitFirst_append '=' _ _ (by decide)]
  simp [parseKeyVal, Except.map, parseIntList_join "BYMONTHDAY" _ _ l hne hb]

theorem seg_byyearday (l : List Int) (hne : l ≠ [])
    (hb : ∀ x ∈ l, -32768 ≤ x ∧ x ≤ 32767) :
    parseSegKV (['B','Y','Y','E','A','R','D','A','Y'] ++ '=' :: joinSep ',' (l.map intChars)) =
      .ok (.byyearday l) := by
  unfold parseSegKV
  rw [splitFirst_append '=' _ _ (by decide)]
  simp [parseKeyVal, Except.map, parseIntList_join "BYYEARDAY" _ _ l hne hb]

theorem seg_byweekno (l : List Int) (hne : l ≠ [])
    (hb : ∀ x ∈ l, -128 ≤ x ∧ x ≤ 127) :
    parseSegKV (['B','Y','W','E','E','K','N','O'] ++ '=' :: joinSep ',' (l.map intChars)) =
      .ok (.byweekno l) := by
  unfold parseSegKV
  rw [splitFirst_append '=' _ _ (by decide)]
  simp [parseKeyVal, Except.map, parseIntList_join "BYWEEKNO" _ _ l hne hb]

theorem seg_byday (l : List NWeekday) (hne : l ≠ []) (hb : ∀ x ∈ l, nwGood x) :
    parseSegKV (['B','Y','D','A','Y'] ++ '=' :: joinSep ',' (l.map nwdChars)) =
      .ok (.byday l) := by
  unfold parseSegKV
  rw [splitFirst_append '=' _ _ (by decide)]
  simp [parseKeyVal, Except.map, parseNWd_join l hne hb]

theorem seg_byhour (l : List Nat) (hne : l ≠ []) (hb : ∀ x ∈ l, x ≤ 255) :
    parseSegKV (['B','Y','H','O','U','R'] ++ '=' :: joinSep ',' (l.map natChars)) =
      .ok (.byhour l) := by
  unfold parseSegKV
  rw [splitFirst_append '=' _ _ (by decide)]
  simp [parseKeyVal, Except.map,
    parseNatList_join "BYHOUR" 0 255 l hne (fun x hx => ⟨Nat.zero_le x, hb x hx⟩)]

theorem seg_byminute (l : List Nat) (hne : l ≠ []) (hb : ∀ x ∈ l, x ≤ 255) :
    parseSegKV (['B','Y','M','I','N','U','T','E'] ++ '=' :: joinSep ',' (l.map natChars)) =
      .ok (.byminute l) := by
  unfold parseSegKV
  rw [splitFirst_append '=' _ _ (by decide)]
  simp [parseKeyVal, Except.map,
    parseNatList_join "BYMINUTE" 0 255 l hne (fun x hx => ⟨Nat.zero_le x, hb x hx⟩)]

theorem seg_bysecond (l : List Nat) (hne : l ≠ []) (hb : ∀ x ∈ l, x ≤ 255) :
    parseSegKV (['B','Y','S','E','C','O','N','D'] ++ '=' :: joinSep ',' (l.map natChars)) =
      .ok (.bysecond l) := by
  unfold parseSegKV
  rw [splitFirst_append '=' _ _ (by decide)]
  simp [parseKeyVal, Except.map,
    parseNatList_join "BYSECOND" 0 255 l hne (fun x hx => ⟨Nat.zero_le x, hb x hx⟩)]


/-! ## Parsing the whole canonical serialization -/

theorem mapE_fieldSegs (r : Unval) (hg : Good r) :
    mapE parseSegKV (fieldSegs r) = .ok (kvsOf r) := by
  obtain ⟨hi1, hi2, hc, hu, hsp, hmo, hmd, hyd, hwn, hwd, hh, hmi, hs⟩ := hg
  unfold fieldSegs kvsOf
  refine mapE_append _ _ _ _ _ ?_ (by
    cases hl : r.by_second with
    | nil => simp [mapE, listSeg, consKV]
    | cons a as =>
      rw [hl] at hs
      have hseg := seg_bysecond (a :: as) (by simp) hs
      simp only [List.cons_append, List.nil_append, List.map_cons] at hseg
      simp [mapE, listSeg, consKV, hseg])
  refine mapE_append _ _ _ _ _ ?_ (by
    cases hl : r.by_minute with
    | nil => simp [mapE, listSeg, consKV]
    | cons a as =>
      rw [hl] at hmi
      have hseg := seg_byminute (a :: as) (by simp) hmi
      simp only [List.cons_append, List.nil_append, List.map_cons] at hseg
      simp [mapE, listSeg, consKV, hseg])
  refine mapE_append _ _ _ _ _ ?_ (by
    cases hl : r.by_hour with
    | nil => simp [mapE, listSeg, consKV]
    | cons a as =>
      rw [hl] at hh
      have hseg := seg_byhour (a :: as) (by simp) hh
      simp only [List.cons_append, List.nil_append, List.map_cons] at hseg
      simp [mapE, listSeg, consKV, hseg])
  refine mapE_append _ _ _ _ _ ?_ (by
    cases hl : r.by_weekday with
    | nil => simp [mapE, listSeg, consKV]
    | cons a as =>
      rw [hl] at hwd
      have hseg := seg_byday (a :: as) (by simp) hwd
      simp only [List.cons_append, List.nil_append, List.map_cons] at hseg
      simp [mapE, listSeg, consKV, hseg])
  refine mapE_append _ _ _ _ _ ?_ (by
    cases hl : r.by_week_no with
    | nil => simp [mapE, listSeg, consKV]
    | cons a as =>
      rw [hl] at hwn
      have hseg := seg_byweekno (a :: as) (by simp) hwn
      simp only [List.cons_append, List.nil_append, List.map_cons] at hseg
      simp [mapE, listSeg, consKV, hseg])
  refine mapE_append _ _ _ _ _ ?_ (by
    cases hl : r.by_year_day with
    | nil => simp [mapE, listSeg, consKV]
    | cons a as =>
      rw [hl] at hyd
      have hseg := seg_byyearday (a :: as) (by simp) hyd
      simp only [List.cons_append, List.nil_append, List.map_cons] at hseg
      simp [mapE, listSeg, consKV, hseg])
  refine mapE_append _ _ _ _ _ ?_ (by
    cases hl : r.by_month_day with
    | nil => simp [mapE, listSeg, consKV]
    | cons a as =>
      rw [hl] at hmd
      have hseg := seg_bymonthday (a :: as) (by simp) hmd
      simp only [List.cons_append, List.nil_append, List.map_cons] at hseg
      simp [mapE, listSeg, consKV, hseg])
  refine mapE_append _ _ _ _ _ ?_ (by
    cases hl : r.by_month with
    | nil => simp [mapE, listSeg, consKV]
    | cons a as =>
      rw [hl] at hmo
      have hseg := seg_bymonth (a :: as) (by simp) hmo
      simp only [List.cons_append, List.nil_append, List.map_cons] at hseg
      simp [mapE, listSeg, consKV, hseg])
  refine mapE_append _ _ _ _ _ ?_ (by
    cases hl : r.by_set_pos with
    | nil => simp [mapE, listSeg, consKV]
    | cons a as =>
      rw [hl] at hsp
      have hseg := seg_bysetpos (a :: as) (by simp) hsp
      simp only [List.cons_append, List.nil_append, List.map_cons] at hseg
      simp [mapE, listSeg, consKV, hseg])
  refine mapE_append _ _ _ _ _ ?_ (by
    by_cases h : r.week_start = .mon
    · simp [h, mapE]
    · have hseg := seg_wkst r.week_start
      simp only [List.cons_append, List.nil_append, List.map_cons] at hseg
      simp [h, mapE, hseg])
  refine mapE_append _ _ _ _ _ ?_ (by
    cases hunt : r.«until» with
    | none => simp [mapE, optSeg, optKV]
    | some dt =>
      have hseg := seg_until dt (hu dt hunt)
      simp only [List.cons_append, List.nil_append, List.map_cons] at hseg
      simp [mapE, optSeg, optKV, hseg])
  refine mapE_append _ _ _ _ _ ?_ (by
    cases hcnt : r.count with
    | none => simp [mapE, optSeg, optKV]
    | some c =>
      have hseg := seg_count c (hc c hcnt)
      simp only [List.cons_append, List.nil_append, List.map_cons] at hseg
      simp [mapE, optSeg, optKV, hseg])
  refine mapE_append _ _ _ _ _ ?_ (by
    by_cases h : r.interval = 1
    · simp [h, mapE]
    · have hseg := seg_interval r.interval hi1 hi2
      simp only [List.cons_append, List.nil_append, List.map_cons] at hseg
      simp [h, mapE, hseg])
  have hseg := seg_freq r.freq
  simp only [List.cons_append, List.nil_append, List.map_cons] at hseg
  simp [mapE, hseg]


/-! ## Folding the parsed segments back into the rule -/

theorem fold_freq (st : Unval) (f : Frequency) :
    List.foldl applyKV st [KV.freq f] = { st with freq := f } := rfl

theorem fold_interval (st : Unval) (n : Nat) (hst : st.interval = 1) :
    List.foldl applyKV st (if n = 1 then [] else [KV.interval n]) =
      { st with interval := n } := by
  by_cases h : n = 1
  · subst h
    rw [if_pos rfl, List.foldl_nil, ← hst]
  · rw [if_neg h]
    rfl

theorem fold_count (st : Unval) (o : Option Nat) (hst : st.count = none) :
    List.foldl applyKV st (optKV KV.count o) = { st with count := o } := by
  cases o with
  | none =>
    show st = { st with count := none }
    rw [← hst]
  | some c => rfl

theorem fold_until (st : Unval) (o : Option DateTime) (hst : st.«until» = none) :
    List.foldl applyKV st (optKV KV.«until» o) = { st with «until» := o } := by
  cases o with
  | none =>
    show st = { st with «until» := none }
    rw [← hst]
  | some dt => rfl

theorem fold_wkst (st : Unval) (w : Weekday) (hst : st.week_start = .mon) :
    List.foldl applyKV st (if w = .mon then [] else [KV.wkst w]) =
      { st with week_start := w } := by
  by_cases h : w = .mon
  · subst h
    rw [if_pos rfl, List.foldl_nil, ← hst]
  · rw [if_neg h]
    rfl

theorem fold_bysetpos (st : Unval) (l : List Int) (hst : st.by_set_pos = []) :
    List.foldl applyKV st (consKV (KV.bysetpos l) l) = { st with by_set_pos := l } := by
  cases l with
  | nil =>
    show st = { st with by_set_pos := [] }
    rw [← hst]
  | cons a as => rfl

theorem fold_bymonth (st : Unval) (l : List Nat) (hst : st.by_month = []) :
    List.foldl applyKV st (consKV (KV.bymonth l) l) = { st with by_month := l } := by
  cases l with
  | nil =>
    show st = { st with by_month := [] }
    rw [← hst]
  | cons a as => rfl

theorem fold_bymonthday (st : Unval) (l : List Int) (hst : st.by_month_day = []) :
    List.foldl applyKV st (consKV (KV.bymonthday l) l) = { st with by_month_day := l } := by
  cases l with
  | nil =>
    show st = { st with by_month_day := [] }
    rw [← hst]
  | cons a as => rfl

theorem fold_byyearday (st : Unval) (l : List Int) (hst : st.by_year_day = []) :
    List.foldl applyKV st (consKV (KV.byyearday l) l) = { st with by_year_day := l } := by
  cases l with
  | nil =>
    show st = { st with by_year_day := [] }
    rw [← hst]
  | cons a as => rfl

theorem fold_byweekno (st : Unval) (l : List Int) (hst : st.by_week_no = []) :
    List.foldl applyKV st (consKV (KV.byweekno l) l) = { st with by_week_no := l } := by
  cases l with
  | nil =>
    show st = { st with by_week_no := [] }
    rw [← hst]
  | cons a as => rfl

theorem fold_byday (st : Unval) (l : List NWeekday) (hst : st.by_weekday = []) :
    List.foldl applyKV st (consKV (KV.byday l) l) = { st with by_weekday := l } := by
  cases l with
  | nil =>
    show st = { st with by_weekday := [] }
    rw [← hst]
  | cons a as => rfl

theorem fold_byhour (st : Unval) (l : List Nat) (hst : st.by_hour = []) :
    List.foldl applyKV st (consKV (KV.byhour l) l) = { st with by_hour := l } := by
  cases l with
  | nil =>
    show st = { st with by_hour := [] }
    rw [← hst]
  | cons a as => rfl

theorem fold_byminute (st : Unval) (l : List Nat) (hst : st.by_minute = []) :
    List.foldl applyKV st (consKV (KV.byminute l) l) = { st with by_minute := l } := by
  cases l with
  | nil =>
    show st = { st with by_minute := [] }
    rw [← hst]
  | cons a as => rfl

theorem fold_bysecond (st : Unval) (l : List Nat) (hst : st.by_second = []) :
    List.foldl applyKV st (consKV (KV.bysecond l) l) = { st with by_second := l } := by
  cases l with
  | nil =>
    show st = { st with by_second := [] }
    rw [← hst]
  | cons a as => rfl

theorem foldl_kvsOf (r : Unval) :
    List.foldl applyKV defaultUnval (kvsOf r) = r := by
  unfold kvsOf
  simp only [List.foldl_append]
  rw [fold_freq]
  rw [fold_interval _ _ rfl]
  rw [fold_count _ _ rfl]
  rw [fold_until _ _ rfl]
  rw [fold_wkst _ _ rfl]
  rw [fold_bysetpos _ _ rfl]
  rw [fold_bymonth _ _ rfl]
  rw [fold_bymonthday _ _ rfl]
  rw [fold_byyearday _ _ rfl]
  rw [fold_byweekno _ _ rfl]
  rw [fold_byday _ _ rfl]
  rw [fold_byhour _ _ rfl]
  rw [fold_byminute _ _ rfl]
  rw [fold_bysecond _ _ rfl]

theorem kvsOf_hasFreq (r : Unval) : (kvsOf r).any kvIsFreq = true := by
  simp [kvsOf, kvIsFreq]


/-! ## The serialized segments contain no `;` -/

theorem no_semi_seg (key val : List Char) (hk : ';' ∉ key) (hv : ';' ∉ val) :
    ';' ∉ key ++ '=' :: val := by
  intro hmem
  rcases List.mem_append.mp hmem with h | h
  · exact hk h
  · rcases List.mem_cons.mp h with h | h
    · exact absurd h (by decide)
    · exact hv h

theorem no_semi_joinSep (parts : List (List Char))
    (h : ∀ p ∈ parts, ';' ∉ p) : ';' ∉ joinSep ',' parts := by
  induction parts with
  | nil => simp [joinSep]
  | cons x xs ih =>
    cases xs with
    | nil => exact h x (List.mem_cons_self _ _)
    | cons y ys =>
      intro hmem
      rw [joinSep] at hmem
      rcases List.mem_append.mp hmem with hm | hm
      · exact h x (List.mem_cons_self _ _) hm
      · rcases List.mem_cons.mp hm with hm | hm
        · exact absurd hm (by decide)
        · exact ih (fun p hp => h p (List.mem_cons_of_mem x hp)) hm

theorem no_semi_freqToken (f : Frequency) : ';' ∉ freqToken f := by
  cases f <;> decide

theorem no_semi_wdCode (w : Weekday) : ';' ∉ wdCode w := by
  cases w <;> decide

theorem forall_mem_single {P : α → Prop} (s : α) (h : P s) : ∀ x ∈ [s], P x := by
  intro x hx
  rw [List.mem_singleton] at hx
  exact hx ▸ h

theorem forall_mem_iteSeg {c : Prop} [Decidable c] {P : α → Prop} (s : α)
    (h : P s) : ∀ x ∈ (if c then [] else [s]), P x := by
  by_cases hc : c
  · simp [hc]
  · rw [if_neg hc]
    exact forall_mem_single s h

theorem forall_mem_optSeg {P : List Char → Prop} (f : α → List Char)
    (o : Option α) (h : ∀ b, P (f b)) : ∀ x ∈ optSeg f o, P x := by
  cases o with
  | none => simp [optSeg]
  | some b =>
    rw [optSeg]
    exact forall_mem_single _ (h b)

theorem forall_mem_listSeg {P : List Char → Prop} (key : List Char)
    (f : α → List Char) (l : List α)
    (h : P (key ++ '=' :: joinSep ',' (l.map f))) : ∀ x ∈ listSeg key f l, P x := by
  cases l with
  | nil => simp [listSeg]
  | cons a as =>
    show ∀ x ∈ [key ++ '=' :: joinSep ',' ((a :: as).map f)], P x
    exact forall_mem_single _ h

theorem fieldSegs_no_semi (r : Unval) : ∀ seg ∈ fieldSegs r, ';' ∉ seg := by
  unfold fieldSegs
  refine List.forall_mem_append.mpr ⟨?_, ?_⟩
  rotate_left
  · exact forall_mem_listSeg _ _ _ (no_semi_seg _ _ (by decide)
      (no_semi_joinSep _ (fun p hp => by
        obtain ⟨x, _, rfl⟩ := List.mem_map.mp hp
        exact (natChars_sep_free x).1)))
  refine List.forall_mem_append.mpr ⟨?_, ?_⟩
  rotate_left
  · exact forall_mem_listSeg _ _ _ (no_semi_seg _ _ (by decide)
      (no_semi_joinSep _ (fun p hp => by
        obtain ⟨x, _, rfl⟩ := List.mem_map.mp hp
        exact (natChars_sep_free x).1)))
  refine List.forall_mem_append.mpr ⟨?_, ?_⟩
  rotate_left
  · exact forall_mem_listSeg _ _ _ (no_semi_seg _ _ (by decide)
      (no_semi_joinSep _ (fun p hp => by
        obtain ⟨x, _, rfl⟩ := List.mem_map.mp hp
        exact (natChars_sep_free x).1)))
  refine List.forall_mem_append.mpr ⟨?_, ?_⟩
  rotate_left
  · exact forall_mem_listSeg _ _ _ (no_semi_seg _ _ (by decide)
      (no_semi_joinSep _ (fun p hp => by
        obtain ⟨x, _, rfl⟩ := List.mem_map.mp hp
        exact (nwdChars_sep_free x).1)))
  refine List.forall_mem_append.mpr ⟨?_, ?_⟩
  rotate_left
  · exact forall_mem_listSeg _ _ _ (no_semi_seg _ _ (by decide)
      (no_semi_joinSep _ (fun p hp => by
        obtain ⟨x, _, rfl⟩ := List.mem_map.mp hp
        exact (intChars_sep_free x).1)))
  refine List.forall_mem_append.mpr ⟨?_, ?_⟩
  rotate_left
  · exact forall_mem_listSeg _ _ _ (no_semi_seg _ _ (by decide)
      (no_semi_joinSep _ (fun p hp => by
        obtain ⟨x, _, rfl⟩ := List.mem_map.mp hp
        exact (intChars_sep_free x).1)))
  refine List.forall_mem_append.mpr ⟨?_, ?_⟩
  rotate_left
  · exact forall_mem_listSeg _ _ _ (no_semi_seg _ _ (by decide)
      (no_semi_joinSep _ (fun p hp => by
        obtain ⟨x, _, rfl⟩ := List.mem_map.mp hp
        exact (intChars_sep_free x).1)))
  refine List.forall_mem_append.mpr ⟨?_, ?_⟩
  rotate_left
  · exact forall_mem_listSeg _ _ _ (no_semi_seg _ _ (by decide)
      (no_semi_joinSep _ (fun p hp => by
        obtain ⟨x, _, rfl⟩ := List.mem_map.mp hp
        exact (natChars_sep_free x).1)))
  refine List.forall_mem_append.mpr ⟨?_, ?_⟩
  rotate_left
  · exact forall_mem_listSeg _ _ _ (no_semi_seg _ _ (by decide)
      (no_semi_joinSep _ (fun p hp => by
        obtain ⟨x, _, rfl⟩ := List.mem_map.mp hp
        exact (intChars_sep_free x).1)))
  refine List.forall_mem_append.mpr ⟨?_, ?_⟩
  rotate_left
  · exact forall_mem_iteSeg _ (no_semi_seg _ _ (by decide) (no_semi_wdCode _))
  refine List.forall_mem_append.mpr ⟨?_, ?_⟩
  rotate_left
  · exact forall_mem_optSeg _ _ (fun dt =>
      no_semi_seg _ _ (by decide) (fmtRfc3339_no_semi dt))
  refine List.forall_mem_append.mpr ⟨?_, ?_⟩
  rotate_left
  · exact forall_mem_optSeg _ _ (fun c =>
      no_semi_seg _ _ (by decide) (natChars_sep_free c).1)
  refine List.forall_mem_append.mpr ⟨?_, ?_⟩
  rotate_left
  · exact forall_mem_iteSeg _ (no_semi_seg _ _ (by decide) (natChars_sep_free _).1)
  · exact forall_mem_single _ (no_semi_seg _ _ (by decide) (no_semi_freqToken _))

theorem fieldSegs_ne_nil (r : Unval) : fieldSegs r ≠ [] := by
  unfold fieldSegs
  simp

/-! ## The full canonical round trip of the modelled codec -/

theorem rruleParse_displayChars (r : Unval) (hg : Good r) :
    rruleParse (displayChars r) = .ok r := by
  unfold rruleParse displayChars
  rw [splitSep_joinSep ';' (fieldSegs r) (fieldSegs_ne_nil r) (fieldSegs_no_semi r)]
  rw [mapE_fieldSegs r hg]
  show (if (kvsOf r).any kvIsFreq = true then
      Except.ok (List.foldl applyKV defaultUnval (kvsOf r))
    else Except.error ParseError.missingFreq) = Except.ok r
  rw [if_pos (kvsOf_hasFreq r), foldl_kvsOf r]


/-! ## Every parsed rule satisfies the range invariant -/

theorem parseNatList_bounds (key : String) (lo hi : Nat) (val : List Char)
    (l : List Nat) (h : parseNatList key lo hi val = .ok l) :
    ∀ x ∈ l, lo ≤ x ∧ x ≤ hi := by
  unfold parseNatList at h
  refine mapE_ok_forall h _ ?_
  intro t y hty
  cases hrn : readNat t with
  | none => rw [hrn] at hty; cases hty
  | some n =>
    rw [hrn] at hty
    replace hty : (if lo ≤ n ∧ n ≤ hi then Except.ok n
        else Except.error (ParseError.invalidNumeric key)) = Except.ok y := hty
    by_cases hb : lo ≤ n ∧ n ≤ hi
    · rw [if_pos hb] at hty
      cases hty
      exact hb
    · rw [if_neg hb] at hty; cases hty

theorem parseIntList_bounds (key : String) (lo hi : Int) (val : List Char)
    (l : List Int) (h : parseIntList key lo hi val = .ok l) :
    ∀ x ∈ l, lo ≤ x ∧ x ≤ hi := by
  unfold parseIntList at h
  refine mapE_ok_forall h _ ?_
  intro t y hty
  cases hrn : readInt t with
  | none => rw [hrn] at hty; cases hty
  | some n =>
    rw [hrn] at hty
    replace hty : (if lo ≤ n ∧ n ≤ hi then Except.ok n
        else Except.error (ParseError.invalidNumeric key)) = Except.ok y := hty
    by_cases hb : lo ≤ n ∧ n ≤ hi
    · rw [if_pos hb] at hty
      cases hty
      exact hb
    · rw [if_neg hb] at hty; cases hty

theorem parseNWdToken_good (t : List Char) (x : NWeekday)
    (h : parseNWdToken t = .ok x) : nwGood x := by
  unfold parseNWdToken at h
  by_cases hpre : t.takeWhile ordChar = []
  · rw [if_pos hpre] at h
    cases hcw : codeToWd t with
    | none => rw [hcw] at h; cases h
    | some w => rw [hcw] at h; cases h; trivial
  · rw [if_neg hpre] at h
    cases hri : readInt (t.takeWhile ordChar) with
    | none => rw [hri] at h; cases h
    | some n =>
      rw [hri] at h
      replace h : (if -32768 ≤ n ∧ n ≤ 32767 then
          (match codeToWd (t.dropWhile ordChar) with
           | some w => Except.ok (NWeekday.nth n w)
           | none => Except.error (ParseError.invalidWeekday (String.mk t)))
        else Except.error (ParseError.invalidWeekday (String.mk t))) = Except.ok x := h
      by_cases hb : -32768 ≤ n ∧ n ≤ 32767
      · rw [if_pos hb] at h
        cases hcw : codeToWd (t.dropWhile ordChar) with
        | none => rw [hcw] at h; cases h
        | some w => rw [hcw] at h; cases h; exact hb
      · rw [if_neg hb] at h; cases h

theorem checkedDT_valid (d dt : DateTime) (h : checkedDT d = some dt) :
    dtValid dt := by
  unfold checkedDT at h
  split at h
  · cases h; assumption
  · cases h

theorem parseRfc3339_valid (val : List Char) (dt : DateTime)
    (h : parseRfc3339 val = some dt) : dtValid dt := by
  unfold parseRfc3339 at h
  split at h
  · split at h
    · exact checkedDT_valid _ _ h
    · cases h
  · cases h

theorem GoodKV_parseSegKV (seg : List Char) (kv : KV)
    (h : parseSegKV seg = .ok kv) : GoodKV kv := by
  unfold parseSegKV at h
  cases hsf : splitFirst '=' seg with
  | none => rw [hsf] at h; cases h
  | some pr =>
    rw [hsf] at h
    replace h : parseKeyVal pr.1 pr.2 = .ok kv := h
    unfold parseKeyVal at h
    by_cases k0 : pr.1 = ['F','R','E','Q']
    · rw [if_pos k0] at h
      cases htf : tokenToFreq pr.2 with
      | none => rw [htf] at h; cases h
      | some f => rw [htf] at h; cases h; trivial
    rw [if_neg k0] at h
    by_cases k1 : pr.1 = ['I','N','T','E','R','V','A','L']
    · rw [if_pos k1] at h
      cases hrn : readNat pr.2 with
      | none => rw [hrn] at h; cases h
      | some n =>
        rw [hrn] at h
        replace h : (if 1 ≤ n ∧ n ≤ 65535 then Except.ok (KV.interval n)
            else Except.error ParseError.invalidInterval) = Except.ok kv := h
        by_cases hb : 1 ≤ n ∧ n ≤ 65535
        · rw [if_pos hb] at h; cases h; exact hb
        · rw [if_neg hb] at h; cases h
    rw [if_neg k1] at h
    by_cases k2 : pr.1 = ['C','O','U','N','T']
    · rw [if_pos k2] at h
      cases hrn : readNat pr.2 with
      | none => rw [hrn] at h; cases h
      | some n =>
        rw [hrn] at h
        replace h : (if n ≤ 4294967295 then Except.ok (KV.count n)
            else Except.error ParseError.invalidCount) = Except.ok kv := h
        by_cases hb : n ≤ 4294967295
        · rw [if_pos hb] at h; cases h; exact hb
        · rw [if_neg hb] at h; cases h
    rw [if_neg k2] at h
    by_cases k3 : pr.1 = ['U','N','T','I','L']
    · rw [if_pos k3] at h
      cases hp : parseRfc3339 pr.2 with
      | none => rw [hp] at h; cases h
      | some dt => rw [hp] at h; cases h; exact parseRfc3339_valid _ _ hp
    rw [if_neg k3] at h
    by_cases k4 : pr.1 = ['W','K','S','T']
    · rw [if_pos k4] at h
      cases hw : codeToWd pr.2 with
      | none => rw [hw] at h; cases h
      | some w => rw [hw] at h; cases h; trivial
    rw [if_neg k4] at h
    by_cases k5 : pr.1 = ['B','Y','S','E','T','P','O','S']
    · rw [if_pos k5] at h
      cases hl : parseIntList "BYSETPOS" (-2147483648) 2147483647 pr.2 with
      | error e => rw [hl] at h; cases h
      | ok l => rw [hl] at h; cases h; exact parseIntList_bounds _ _ _ _ _ hl
    rw [if_neg k5] at h
    by_cases k6 : pr.1 = ['B','Y','M','O','N','T','H']
    · rw [if_pos k6] at h
      cases hl : parseNatList "BYMONTH" 1 12 pr.2 with
      | error e => rw [hl] at h; cases h
      | ok l => rw [hl] at h; cases h; exact parseNatList_bounds _ _ _ _ _ hl
    rw [if_neg k6] at h
    by_cases k7 : pr.1 = ['B','Y','M','O','N','T','H','D','A','Y']
    · rw [if_pos k7] at h
      cases hl : parseIntList "BYMONTHDAY" (-128) 127 pr.2 with
      | error e => rw [hl] at h; cases h
      | ok l => rw [hl] at h; cases h; exact parseIntList_bounds _ _ _ _ _ hl
    rw [if_neg k7] at h
    by_cases k8 : pr.1 = ['B','Y','Y','E','A','R','D','A','Y']
    · rw [if_pos k8] at h
      cases hl : parseIntList "BYYEARDAY" (-32768) 32767 pr.2 with
      | error e => rw [hl] at h; cases h
      | ok l => rw [hl] at h; cases h; exact parseIntList_bounds _ _ _ _ _ hl
    rw [if_neg k8] at h
    by_cases k9 : pr.1 = ['B','Y','W','E','E','K','N','O']
    · rw [if_pos k9] at h
      cases hl : parseIntList "BYWEEKNO" (-128) 127 pr.2 with
      | error e => rw [hl] at h; cases h
      | ok l => rw [hl] at h; cases h; exact parseIntList_bounds _ _ _ _ _ hl
    rw [if_neg k9] at h
    by_cases k10 : pr.1 = ['B','Y','D','A','Y']
    · rw [if_pos k10] at h
      cases hl : mapE parseNWdToken (splitSep ',' pr.2) with
      | error e => rw [hl] at h; cases h
      | ok l =>
        rw [hl] at h; cases h
        exact mapE_ok_forall hl _ (fun t y ht => parseNWdToken_good t y ht)
    rw [if_neg k10] at h
    by_cases k11 : pr.1 = ['B','Y','H','O','U','R']
    · rw [if_pos k11] at h
      cases hl : parseNatList "BYHOUR" 0 255 pr.2 with
      | error e => rw [hl] at h; cases h
      | ok l =>
        rw [hl] at h; cases h
        exact fun x hx => (parseNatList_bounds _ _ _ _ _ hl x hx).2
    rw [if_neg k11] at h
    by_cases k12 : pr.1 = ['B','Y','M','I','N','U','T','E']
    · rw [if_pos k12] at h
      cases hl : parseNatList "BYMINUTE" 0 255 pr.2 with
      | error e => rw [hl] at h; cases h
      | ok l =>
        rw [hl] at h; cases h
        exact fun x hx => (parseNatList_bounds _ _ _ _ _ hl x hx).2
    rw [if_neg k12] at h
    by_cases k13 : pr.1 = ['B','Y','S','E','C','O','N','D']
    · rw [if_pos k13] at h
      cases hl : parseNatList "BYSECOND" 0 255 pr.2 with
      | error e => rw [hl] at h; cases h
      | ok l =>
        rw [hl] at h; cases h
        exact fun x hx => (parseNatList_bounds _ _ _ _ _ hl x hx).2
    rw [if_neg k13] at h
    cases h

theorem Good_default : Good defaultUnval := by
  refine ⟨by decide, by decide, ?_, ?_, ?_, ?_, ?_, ?_, ?_, ?_, ?_, ?_, ?_⟩ <;>
    intro x h <;> simp [defaultUnval] at h

theorem Good_applyKV (st : Unval) (kv : KV) (hst : Good st) (hkv : GoodKV kv) :
    Good (applyKV st kv) := by
  cases kv <;> simp_all [Good, GoodKV, applyKV]

theorem Good_foldl (kvs : List KV) (st : Unval) (hst : Good st)
    (h : ∀ kv ∈ kvs, GoodKV kv) : Good (List.foldl applyKV st kvs) := by
  induction kvs generalizing st with
  | nil => exact hst
  | cons kv kvs ih =>
    rw [List.foldl_cons]
    exact ih (applyKV st kv)
      (Good_applyKV st kv hst (h kv (List.mem_cons_self _ _)))
      (fun k hk => h k (List.mem_cons_of_mem _ hk))

theorem rruleParse_good (l : List Char) (r : Unval)
    (h : rruleParse l = .ok r) : Good r := by
  unfold rruleParse at h
  cases hm : mapE parseSegKV (splitSep ';' l) with
  | error e => rw [hm] at h; cases h
  | ok kvs =>
    rw [hm] at h
    replace h : (if kvs.any kvIsFreq = true then
        Except.ok (kvs.foldl applyKV defaultUnval)
      else Except.error ParseError.missingFreq) = Except.ok r := h
    by_cases hf : kvs.any kvIsFreq = true
    · rw [if_pos hf] at h
      cases h
      exact Good_foldl kvs defaultUnval Good_default
        (mapE_ok_forall hm _ (fun s kv hs => GoodKV_parseSegKV s kv hs))
    · rw [if_neg hf] at h; cases h


/-! ## The NIF layer's conversion -/

theorem parseExternalNW_err (e : ExternalNWeekday)
    (h : weekdayFromStr (enwCode e) = none) :
    parseExternalNW e = .error (enwCode e) := by
  cases e with
  | Tuple n s =>
    simp only [enwCode] at h
    simp [parseExternalNW, enwCode, h]
  | Str s =>
    simp only [enwCode] at h
    simp [parseExternalNW, enwCode, h]

theorem parseExternalNW_ok_of (e : ExternalNWeekday) (w : Weekday)
    (h : weekdayFromStr (enwCode e) = some w) :
    ∃ x, parseExternalNW e = .ok x := by
  cases e with
  | Tuple n s =>
    simp only [enwCode] at h
    exact ⟨.nth n w, by simp [parseExternalNW, h]⟩
  | Str s =>
    simp only [enwCode] at h
    exact ⟨.every w, by simp [parseExternalNW, h]⟩

theorem mapE_parseExternalNW_error (l : List ExternalNWeekday)
    (e : ExternalNWeekday) (h : l.find? badWeekdayEntry = some e) :
    mapE parseExternalNW l = .error (enwCode e) := by
  induction l with
  | nil => cases h
  | cons x xs ih =>
    rw [List.find?_cons] at h
    cases hx : badWeekdayEntry x with
    | true =>
      rw [hx] at h
      replace h : some x = some e := h
      cases h
      have hnone : weekdayFromStr (enwCode e) = none :=
        Option.isNone_iff_eq_none.mp (by simpa [badWeekdayEntry] using hx)
      rw [mapE, parseExternalNW_err e hnone]
    | false =>
      rw [hx] at h
      replace h : List.find? badWeekdayEntry xs = some e := h
      have hsome : ∃ w, weekdayFromStr (enwCode x) = some w := by
        cases hw : weekdayFromStr (enwCode x) with
        | none =>
          have hbad : badWeekdayEntry x = true := by simp [badWeekdayEntry, hw]
          rw [hx] at hbad
          exact Bool.noConfusion hbad
        | some w => exact ⟨w, rfl⟩
      obtain ⟨w, hw⟩ := hsome
      obtain ⟨y, hy⟩ := parseExternalNW_ok_of x w hw
      rw [mapE, hy, ih h]

theorem mapE_parseExternalNW_ok (l : List ExternalNWeekday)
    (h : ∀ e ∈ l, (weekdayFromStr (enwCode e)).isSome = true) :
    ∃ ws, mapE parseExternalNW l = .ok ws := by
  induction l with
  | nil => exact ⟨[], rfl⟩
  | cons x xs ih =>
    obtain ⟨w, hw⟩ := Option.isSome_iff_exists.mp (h x (List.mem_cons_self _ _))
    obtain ⟨y, hy⟩ := parseExternalNW_ok_of x w hw
    obtain ⟨ws, hws⟩ := ih (fun e he => h e (List.mem_cons_of_mem x he))
    exact ⟨y :: ws, by rw [mapE, hy, hws]⟩

theorem mapO_months_ok (l : List Nat) (h : ∀ m ∈ l, 1 ≤ m ∧ m ≤ 12) :
    ∃ ms, mapO monthTryFrom l = some ms ∧ ms.map monthNumber = l :=
  mapO_of_forall monthTryFrom monthNumber l (fun m hm => by
    obtain ⟨mo, h1, h2⟩ := monthTryFrom_range m (h m hm).1 (h m hm).2
    exact ⟨mo, h1, h2⟩)

theorem properties_to_rrule_toProps (r : Unval) (hg : Good r) :
    properties_to_rrule (rruleToProperties r) = .ok r := by
  obtain ⟨ms, hms, hmap⟩ := mapO_months_ok r.by_month hg.2.2.2.2.2.1
  unfold properties_to_rrule rruleToProperties
  simp only [freqOfDebug_freqDebug, weekdayFromStr_wdDebug, hms,
    mapE_of_map parseExternalNW to_external_n_weekday r.by_weekday
      (fun x _ => parseExternalNW_toExternal x), hmap]

theorem properties_to_rrule_ok (p : Properties) (fr : Frequency) (w : Weekday)
    (hf : freqOfDebug p.freq = some fr)
    (hw : weekdayFromStr p.week_start = some w)
    (hm : ∀ m ∈ p.by_month, 1 ≤ m ∧ m ≤ 12)
    (hwd : ∀ e ∈ p.by_weekday, (weekdayFromStr (enwCode e)).isSome = true) :
    ∃ r, properties_to_rrule p = .ok r ∧ r.interval = p.interval ∧
      r.by_hour = p.by_hour := by
  obtain ⟨ms, hms, hmap⟩ := mapO_months_ok p.by_month hm
  obtain ⟨ws, hws⟩ := mapE_parseExternalNW_ok p.by_weekday hwd
  refine
    ⟨{ freq := fr, interval := p.interval, count := p.count,
       «until» := p.«until», week_start := w, by_set_pos := p.by_set_pos,
       by_month := ms.map monthNumber, by_month_day := p.by_month_day,
       by_year_day := p.by_year_day, by_week_no := p.by_week_no,
       by_weekday := ws, by_hour := p.by_hour, by_minute := p.by_minute,
       by_second := p.by_second }, ?_, rfl, rfl⟩
  unfold properties_to_rrule
  simp only [hf, hw, hms, hws]

theorem properties_to_rrule_badFreq (p : Properties)
    (hf : freqOfDebug p.freq = none) :
    properties_to_rrule p = .error (.invalidFrequency p.freq) := by
  unfold properties_to_rrule
  rw [hf]

theorem properties_to_rrule_badMonth (p : Properties) (fr : Frequency)
    (w : Weekday) (hf : freqOfDebug p.freq = some fr)
    (hw : weekdayFromStr p.week_start = some w)
    (m : Nat) (hm : m ∈ p.by_month) (hbad : ¬(1 ≤ m ∧ m ≤ 12)) :
    properties_to_rrule p = .error (.invalidMonth p.by_month) := by
  unfold properties_to_rrule
  simp only [hf, hw, mapO_eq_none monthTryFrom p.by_month m hm (monthTryFrom_none m hbad)]

theorem properties_to_rrule_badWeekday (p : Properties) (fr : Frequency)
    (w : Weekday) (hf : freqOfDebug p.freq = some fr)
    (hw : weekdayFromStr p.week_start = some w)
    (hm : ∀ m ∈ p.by_month, 1 ≤ m ∧ m ≤ 12)
    (e : ExternalNWeekday) (hfind : p.by_weekday.find? badWeekdayEntry = some e) :
    properties_to_rrule p = .error (.invalidWeekday (enwCode e)) := by
  obtain ⟨ms, hms, _⟩ := mapO_months_ok p.by_month hm
  unfold properties_to_rrule
  simp only [hf, hw, hms, mapE_parseExternalNW_error p.by_weekday e hfind]


/-! # Claim theorems -/

/-- C1: for every `Properties` value `f` that `string_to_rrule`
successfully produces from some input text, serialization succeeds and
parsing the serialized text back recovers `f` exactly — equality of
`Properties` values is field-by-field equality of freq, interval, count,
until, week_start and every `by_*` sequence (no string equality of the
two texts is claimed). -/
theorem c1_parse_serialize_roundtrip (text : String) (f : Properties)
    (h : string_to_rrule text = .ok f) :
    ∃ s, rrule_to_string f = .ok s ∧ string_to_rrule s = .ok f := by
  unfold string_to_rrule at h
  cases hp : rruleParse text.data with
  | error e => rw [hp] at h; cases h
  | ok r =>
    rw [hp] at h
    cases h
    have hg := rruleParse_good _ _ hp
    refine ⟨String.mk (displayChars r), ?_, ?_⟩
    · unfold rrule_to_string
      rw [properties_to_rrule_toProps r hg]
    · unfold string_to_rrule
      have hdata : (String.mk (displayChars r)).data = displayChars r := rfl
      rw [hdata, rruleParse_displayChars r hg]

/-- C1 witness: the round trip applied to the concrete text
`FREQ=DAILY;INTERVAL=2;COUNT=10`. -/
theorem c1_roundtrip_witness :
    ∃ s, rrule_to_string exDaily = .ok s ∧ string_to_rrule s = .ok exDaily :=
  c1_parse_serialize_roundtrip "FREQ=DAILY;INTERVAL=2;COUNT=10" exDaily rfl

/-- C2 (code bug): the `MaybeDateTime` decoder calls
`DateTime::parse_from_rfc3339(&dt).unwrap()`, so decoding an `until`
field given as a string that is not a valid RFC 3339 timestamp crashes
the native code (`aborts`) instead of returning an error, while a valid
timestamp decodes fine. -/
theorem c2_until_decoder_aborts :
    decodeMaybeDateTime (.str "garbage") = .aborts ∧
    decodeMaybeDateTime (.str "2023-04-01T00:00:00Z") =
      .ok (some { year := 2023, month := 4, day := 1, hour := 0,
                  minute := 0, second := 0 }) ∧
    decodeMaybeDateTime .nil = .ok none :=
  ⟨rfl, rfl, rfl⟩

/-- C3 counterexample: the claim fails as stated — the derived-default
`Properties` value (freq is the empty string) is representable in the
`Properties` type, yet `rrule_to_string` returns an error on it. -/
theorem c3_serialize_fails_on_default :
    rrule_to_string Properties.rustDefault = .error (.invalidFrequency "") := rfl

/-- C3 (amended): serialization cannot fail only on the values that pass
the construction checks — recognized freq, recognized week_start, all
`by_month` entries in 1-12 and all `by_weekday` codes recognized; for
every such `Properties` value `rrule_to_string` returns a string. -/
theorem c3_serialize_total_on_constructible (p : Properties) (fr : Frequency)
    (w : Weekday) (hf : freqOfDebug p.freq = some fr)
    (hw : weekdayFromStr p.week_start = some w)
    (hm : ∀ m ∈ p.by_month, 1 ≤ m ∧ m ≤ 12)
    (hwd : ∀ e ∈ p.by_weekday, (weekdayFromStr (enwCode e)).isSome = true) :
    ∃ s, rrule_to_string p = .ok s := by
  obtain ⟨r, hr, _, _⟩ := properties_to_rrule_ok p fr w hf hw hm hwd
  refine ⟨String.mk (displayChars r), ?_⟩
  unfold rrule_to_string
  rw [hr]

/-- C3 witness: the amended statement applied to a concrete value. -/
theorem c3_serialize_witness : ∃ s, rrule_to_string exDaily = .ok s :=
  c3_serialize_total_on_constructible exDaily .daily .mon rfl rfl
    (by simp [exDaily]) (by simp [exDaily])

/-- C4 counterexample: the claim fails as stated — for the claim's own
example `by_hour = [99]`, this layer's construction succeeds (the value
is not inspected), and the error `validate_rrule` returns for it is not
one of this layer's field-specific construction errors. -/
theorem c4_by_hour_uninspected :
    isOkE (properties_to_rrule exByHour99) = true ∧
    (match validate_rrule exByHour99 "2023-04-01T00:00:00Z" with
     | .error e => isConstructionError e
     | .ok _ => false) = false :=
  ⟨rfl, rfl⟩

/-- C4 (amended): among the numeric list fields only `by_month` receives
a field-specific error from this layer's own construction checks;
whenever the frequency, week start and weekday codes pass, construction
succeeds regardless of the contents of `by_hour` (and the other numeric
lists), which therefore reach the external engine uninspected. -/
theorem c4_only_month_checked_here (p : Properties) (fr : Frequency)
    (w : Weekday) (hf : freqOfDebug p.freq = some fr)
    (hw : weekdayFromStr p.week_start = some w)
    (hwd : ∀ e ∈ p.by_weekday, (weekdayFromStr (enwCode e)).isSome = true) :
    ((∃ m ∈ p.by_month, ¬(1 ≤ m ∧ m ≤ 12)) →
      properties_to_rrule p = .error (.invalidMonth p.by_month)) ∧
    ((∀ m ∈ p.by_month, 1 ≤ m ∧ m ≤ 12) →
      ∃ r, properties_to_rrule p = .ok r ∧ r.by_hour = p.by_hour) := by
  constructor
  · rintro ⟨m, hm, hbad⟩
    exact properties_to_rrule_badMonth p fr w hf hw m hm hbad
  · intro hm
    obtain ⟨r, hr, _, hh⟩ := properties_to_rrule_ok p fr w hf hw hm hwd
    exact ⟨r, hr, hh⟩

/-- C4 witness: the amended statement applied to the `by_hour = [99]`
value — construction succeeds and hands 99 on. -/
theorem c4_witness :
    ∃ r, properties_to_rrule exByHour99 = .ok r ∧
      r.by_hour = exByHour99.by_hour :=
  (c4_only_month_checked_here exByHour99 .daily .mon rfl rfl
    (by simp [exByHour99])).2 (by simp [exByHour99])

/-- C5: during construction (before the engine is consulted), given the
earlier freq/week-start checks pass: every out-of-range `by_month` entry
yields the invalid-month error whose payload contains the offending
value; with months in range, an unrecognized weekday code (the first
offender, per the short-circuit policy of spec §7) yields the
invalid-weekday error naming that code; and when every month is in 1-12
and every weekday code is recognized, construction succeeds, so it does
not fail on those fields. -/
theorem c5_month_weekday_construction_checks (p : Properties)
    (fr : Frequency) (w : Weekday) (hf : freqOfDebug p.freq = some fr)
    (hw : weekdayFromStr p.week_start = some w) :
    (∀ m ∈ p.by_month, ¬(1 ≤ m ∧ m ≤ 12) →
      ∃ l, properties_to_rrule p = .error (.invalidMonth l) ∧ m ∈ l) ∧
    ((∀ m ∈ p.by_month, 1 ≤ m ∧ m ≤ 12) →
      ∀ e, p.by_weekday.find? badWeekdayEntry = some e →
        properties_to_rrule p = .error (.invalidWeekday (enwCode e)) ∧
          weekdayFromStr (enwCode e) = none ∧ e ∈ p.by_weekday) ∧
    ((∀ m ∈ p.by_month, 1 ≤ m ∧ m ≤ 12) →
      (∀ e ∈ p.by_weekday, (weekdayFromStr (enwCode e)).isSome = true) →
      isOkE (properties_to_rrule p) = true) := by
  refine ⟨?_, ?_, ?_⟩
  · intro m hm hbad
    exact ⟨p.by_month, properties_to_rrule_badMonth p fr w hf hw m hm hbad, hm⟩
  · intro hm e hfind
    refine ⟨properties_to_rrule_badWeekday p fr w hf hw hm e hfind, ?_, ?_⟩
    · have := List.find?_some hfind
      exact Option.isNone_iff_eq_none.mp (by simpa [badWeekdayEntry] using this)
    · exact List.mem_of_find?_eq_some hfind
  · intro hm hwd
    obtain ⟨r, hr, _, _⟩ := properties_to_rrule_ok p fr w hf hw hm hwd
    rw [hr]
    rfl

/-- C5 witness: the month check applied to `by_month = [13]`. -/
theorem c5_witness :
    ∃ l, properties_to_rrule exMonth13 = .error (.invalidMonth l) ∧ 13 ∈ l :=
  (c5_month_weekday_construction_checks exMonth13 .daily .mon rfl rfl).1
    13 (by simp [exMonth13]) (by decide)

/-- C6: for every `Properties` value and every start string that does
not parse as a timestamp, `validate_rrule` fails fast with the
invalid-start ("Invalid datetime") error — rule construction is never
attempted, so the error is the same whatever `p` contains. -/
theorem c6_invalid_start_fails_fast (p : Properties) (start : String)
    (h : parseRfc3339 start.data = none) :
    validate_rrule p start = .error (.invalidDateTime start) := by
  unfold validate_rrule
  rw [h]

/-- C6 witness: applied to a `Properties` value that would itself fail
construction (empty freq), the returned error is still the invalid-start
one. -/
theorem c6_witness :
    validate_rrule Properties.rustDefault "not-a-date" =
      .error (.invalidDateTime "not-a-date") :=
  c6_invalid_start_fails_fast Properties.rustDefault "not-a-date" rfl

/-- C7: `string_to_rrule "FREQ=DAILY;INTERVAL=2;COUNT=10"` succeeds with
frequency "Daily", interval 2, count `some 10`, no until, and every list
field empty. -/
theorem c7_parse_daily_example :
    string_to_rrule "FREQ=DAILY;INTERVAL=2;COUNT=10" = .ok exDaily ∧
    exDaily.freq = "Daily" ∧ exDaily.interval = 2 ∧
    exDaily.count = some 10 ∧ exDaily.«until» = none ∧
    exDaily.by_set_pos = [] ∧ exDaily.by_month = [] ∧
    exDaily.by_month_day = [] ∧ exDaily.by_year_day = [] ∧
    exDaily.by_week_no = [] ∧ exDaily.by_weekday = [] ∧
    exDaily.by_hour = [] ∧ exDaily.by_minute = [] ∧ exDaily.by_second = [] :=
  ⟨rfl, rfl, rfl, rfl, rfl, rfl, rfl, rfl, rfl, rfl, rfl, rfl, rfl, rfl⟩

/-- C8: `BYDAY` tokens have two shapes — a bare two-letter code parses to
an `Every` entry and a signed-integer-prefixed code parses to an `Nth`
entry with that ordinal and weekday; entries appear in list order, and in
particular `FREQ=MONTHLY;BYDAY=-1FR` yields the single `Nth(-1, Friday)`
entry (Elixir-side: the tuple `(-1, "Fri")`). -/
theorem c8_byday_two_shapes :
    (∀ w : Weekday, parseNWdToken (wdCode w) = .ok (.every w)) ∧
    (∀ (n : Int) (w : Weekday), -32768 ≤ n → n ≤ 32767 →
      parseNWdToken (intChars n ++ wdCode w) = .ok (.nth n w)) ∧
    string_to_rrule "FREQ=MONTHLY;BYDAY=-1FR" = .ok exMonthly ∧
    string_to_rrule "FREQ=WEEKLY;BYDAY=MO,WE,FR" = .ok exWeekly := by
  refine ⟨?_, ?_, rfl, rfl⟩
  · exact fun w => parseNWdToken_every w
  · exact fun n w h1 h2 => parseNWdToken_nth n w h1 h2

/-- C8 witness: the `Nth` shape at the concrete token `-1FR`. -/
theorem c8_witness :
    parseNWdToken (intChars (-1) ++ wdCode .fri) = .ok (.nth (-1) .fri) :=
  c8_byday_two_shapes.2.1 (-1) .fri (by decide) (by decide)

/-- C9 counterexample: the claim fails as stated — `week_start` is not
matched exactly and case-sensitively against the debug names: the
upper-case "MON", which is no weekday's debug rendering, is accepted by
`rrule_to_string` (the underlying `chrono` weekday parser is
case-insensitive). -/
theorem c9_week_start_case_insensitive :
    rrule_to_string exWeekStartMON = .ok "FREQ=DAILY" ∧
    (∀ w : Weekday, wdDebug w ≠ "MON") :=
  ⟨rfl, fun w => by cases w <;> decide⟩

/-- C9 (amended): `string_to_rrule` produces freq as a title-case debug
name and week_start as a three-letter debug name; `freq` is matched
exactly and case-sensitively against the seven title-case names, so a
hand-built freq outside them (e.g. the RFC token "DAILY") draws the
invalid-frequency error from both `rrule_to_string` and `validate_rrule`
(once the start string parses); `week_start`, however, is parsed
case-insensitively — "MON" is accepted as Monday. -/
theorem c9_freq_exact_week_start_insensitive :
    (∀ (s : String) (p : Properties), string_to_rrule s = .ok p →
      (∃ fr, p.freq = freqDebug fr) ∧ ∃ w, p.week_start = wdDebug w) ∧
    (∀ p : Properties, freqOfDebug p.freq = none →
      rrule_to_string p = .error (.invalidFrequency p.freq) ∧
      ∀ (start : String) (dt : DateTime), parseRfc3339 start.data = some dt →
        validate_rrule p start = .error (.invalidFrequency p.freq)) ∧
    weekdayFromStr "MON" = some .mon := by
  refine ⟨?_, ?_, rfl⟩
  · intro s p h
    unfold string_to_rrule at h
    cases hp : rruleParse s.data with
    | error e => rw [hp] at h; cases h
    | ok r =>
      rw [hp] at h
      cases h
      exact ⟨⟨r.freq, rfl⟩, ⟨r.week_start, rfl⟩⟩
  · intro p hf
    have hc := properties_to_rrule_badFreq p hf
    constructor
    · unfold rrule_to_string
      rw [hc]
    · intro start dt hdt
      unfold validate_rrule
      rw [hdt, hc]

/-- C9 witness: the RFC token "DAILY" as freq draws the invalid-frequency
error from both operations. -/
theorem c9_witness :
    rrule_to_string exFreqDAILY = .error (.invalidFrequency "DAILY") ∧
    validate_rrule exFreqDAILY "2023-04-01T00:00:00Z" =
      .error (.invalidFrequency "DAILY") := by
  obtain ⟨h1, h2⟩ := c9_freq_exact_week_start_insensitive.2.1 exFreqDAILY rfl
  exact ⟨h1, h2 "2023-04-01T00:00:00Z"
    { year := 2023, month := 4, day := 1, hour := 0, minute := 0, second := 0 } rfl⟩

/-- C10: construction imposes no positivity check on interval — for every
`Properties` value with interval 0 whose frequency, week start, months
and weekday codes pass their checks, `properties_to_rrule` succeeds, and
the built rule carries interval 0. -/
theorem c10_zero_interval_constructs (p : Properties) (fr : Frequency)
    (w : Weekday) (hzero : p.interval = 0)
    (hf : freqOfDebug p.freq = some fr)
    (hw : weekdayFromStr p.week_start = some w)
    (hm : ∀ m ∈ p.by_month, 1 ≤ m ∧ m ≤ 12)
    (hwd : ∀ e ∈ p.by_weekday, (weekdayFromStr (enwCode e)).isSome = true) :
    ∃ r, properties_to_rrule p = .ok r ∧ r.interval = 0 := by
  obtain ⟨r, hr, hint, _⟩ := properties_to_rrule_ok p fr w hf hw hm hwd
  exact ⟨r, hr, by rw [hint, hzero]⟩

/-- C10 witness: a concrete zero-interval value constructs. -/
theorem c10_witness :
    ∃ r, properties_to_rrule exZeroInterval = .ok r ∧ r.interval = 0 :=
  c10_zero_interval_constructs exZeroInterval .daily .mon rfl rfl rfl
    (by simp [exZeroInterval]) (by simp [exZeroInterval])

end RruleCodec
